import Mathlib

/-! The chat widget of `script.js`, as a shallow embedding.

JavaScript strings are modelled as `List Char`.  Every pattern the script
matches against (the entities of `sanitize`, the self-introduction patterns of
`maybeCaptureName`, the whitespace class of `trim` and `split`) consists of
characters of the Basic Multilingual Plane, so matching by code point and
matching by UTF-16 code unit agree.  Effects on the page are kept as logs in
the state: the calls of `addMessage`, of `saveProfile` and of `fetch`.
-/

namespace LorealChat

/-! ## String primitives of the host language -/

/-- Worker of `replaceAll`: `skip` counts the characters of the subject that a
match found earlier still covers. -/
def replaceAux (pat rep : List Char) : Nat → List Char → List Char
  | _, [] => []
  | skip + 1, _ :: cs => replaceAux pat rep skip cs
  | 0, c :: cs =>
    if pat.isPrefixOf (c :: cs) then rep ++ replaceAux pat rep (pat.length - 1) cs
    else c :: replaceAux pat rep 0 cs

/-- The call `s.replace(/pat/g, rep)` for a pattern `pat` that is a non-empty
literal: the subject is scanned left to right, every match is replaced and the
scan resumes after the match (matches do not overlap, replaced text is not
scanned again). -/
def replaceAll (pat rep s : List Char) : List Char :=
  replaceAux pat rep 0 s

/-- The regular-expression class `\s`, which is also the set `trim` strips:
the WhiteSpace and LineTerminator code points of ECMAScript. -/
def isSpace (c : Char) : Bool :=
  let n := c.toNat
  (9 ≤ n && n ≤ 13) || n == 0x20 || n == 0xA0 || n == 0x1680 ||
  (0x2000 ≤ n && n ≤ 0x200A) || n == 0x2028 || n == 0x2029 || n == 0x202F ||
  n == 0x205F || n == 0x3000 || n == 0xFEFF

/-- The method `String.prototype.trim`. -/
def trim (s : List Char) : List Char :=
  ((s.dropWhile isSpace).reverse.dropWhile isSpace).reverse

/-- Worker of `splitWs`: `inSep` tells that the scan is inside a separator,
`cur` is the token read so far, reversed. -/
def splitAux : Bool → List Char → List Char → List (List Char)
  | _, cur, [] => [cur.reverse]
  | inSep, cur, c :: cs =>
    if isSpace c then
      if inSep then splitAux true cur cs else cur.reverse :: splitAux true [] cs
    else splitAux false (c :: cur) cs

/-- The call `n.split(/\s+/)`: the subject is cut at every maximal run of
whitespace; a run at the start or at the end leaves an empty token there, and
the empty subject gives the single empty token. -/
def splitWs (s : List Char) : List (List Char) :=
  splitAux false [] s

/-- The call `xs.join(sep)`. -/
def join (sep : List Char) : List (List Char) → List Char
  | [] => []
  | [x] => x
  | x :: y :: rest => x ++ sep ++ join sep (y :: rest)

/-- Upper-case mapping of one character, as `toUpperCase` gives it on the
ASCII letters and on the Latin-1 letters U+00E0..U+00FE (U+00F7 apart); this
covers every character the name patterns can capture.  The rest of the
Unicode table is not reproduced: other characters are returned as they are. -/
def upperChar (c : Char) : Char :=
  let n := c.toNat
  if (0x61 ≤ n && n ≤ 0x7A) || (0xE0 ≤ n && n ≤ 0xFE && n != 0xF7) then Char.ofNat (n - 0x20)
  else c

/-- Lower-case mapping of one character, the counterpart of `upperChar`
(U+0041..U+005A and U+00C0..U+00DE, U+00D7 apart). -/
def lowerChar (c : Char) : Char :=
  let n := c.toNat
  if (0x41 ≤ n && n ≤ 0x5A) || (0xC0 ≤ n && n ≤ 0xDE && n != 0xD7) then Char.ofNat (n + 0x20)
  else c

/-- The method `String.prototype.toUpperCase`, character by character. -/
def toUpperCase (s : List Char) : List Char := s.map upperChar

/-- The method `String.prototype.toLowerCase`, character by character. -/
def toLowerCase (s : List Char) : List Char := s.map lowerChar

/-! ## `sanitize` and `renderWithNameChip` -/

/-- The function `sanitize` of the script: five global replacements in a row. -/
def sanitize (s : List Char) : List Char :=
  replaceAll "&lt;/strong&gt;".toList "</strong>".toList
    (replaceAll "&lt;strong&gt;".toList "<strong>".toList
      (replaceAll ">".toList "&gt;".toList
        (replaceAll "<".toList "&lt;".toList
          (replaceAll "&".toList "&amp;".toList s))))

/-- The entity written for one character outside a strong tag. -/
def escChar (c : Char) : List Char :=
  if c = '&' then "&amp;".toList
  else if c = '<' then "&lt;".toList
  else if c = '>' then "&gt;".toList
  else [c]

/-- The first three replacements of `sanitize` taken together: every
character is replaced by its entity. -/
def escapeAll : List Char → List Char
  | [] => []
  | c :: cs => escChar c ++ escapeAll cs

/-- The first four replacements of `sanitize` taken together: the entities,
then `&lt;strong&gt;` opened again. -/
def reopenStrong (s : List Char) : List Char :=
  replaceAll "&lt;strong&gt;".toList "<strong>".toList (escapeAll s)

/-- A character that `sanitize` copies as it is. -/
def Plain (c : Char) : Prop :=
  c ≠ '&' ∧ c ≠ '<' ∧ c ≠ '>'

/-- Worker of `sanitizeSpec`; `skip` counts the characters of a tag already
copied. -/
def sanitizeSpecAux : Nat → List Char → List Char
  | _, [] => []
  | skip + 1, _ :: cs => sanitizeSpecAux skip cs
  | 0, c :: cs =>
    if "<strong>".toList.isPrefixOf (c :: cs) then
      "<strong>".toList ++ sanitizeSpecAux 7 cs
    else if "</strong>".toList.isPrefixOf (c :: cs) then
      "</strong>".toList ++ sanitizeSpecAux 8 cs
    else escChar c ++ sanitizeSpecAux 0 cs

/-- Sanitization as the specification words it, in one pass: a literal
`<strong>` or `</strong>` is copied, and outside those every `&`, `<`, `>`
becomes `&amp;`, `&lt;`, `&gt;`. -/
def sanitizeSpec (s : List Char) : List Char :=
  sanitizeSpecAux 0 s

/-- JavaScript truthiness of `profile.name`: a string that is not empty. -/
def nameTruthy : Option (List Char) → Option (List Char)
  | some (c :: cs) => some (c :: cs)
  | _ => none

/-- The function `renderWithNameChip` of the script. -/
def renderWithNameChip (name : Option (List Char)) (text : List Char) : List Char :=
  match nameTruthy name with
  | some n =>
    "<span class=\"name-chip\">".toList ++ sanitize n ++ "</span>\n".toList ++ sanitize text
  | none => sanitize text

/-- The pattern `p` occurs in `out` starting at index `i`. -/
def OccursAt (p out : List Char) (i : Nat) : Prop :=
  p <+: out.drop i

/-- A tag: `<`, then characters other than `<` and `>`, then `>`. -/
def IsTag (t : List Char) : Prop :=
  ∃ mid : List Char, t = '<' :: mid ++ ['>'] ∧ ∀ x ∈ mid, x ≠ '<' ∧ x ≠ '>'

/-- Text made only of tags taken from `tags` and of characters other than `<`
and `>`. -/
inductive Tagged (tags : List (List Char)) : List Char → Prop
  | nil : Tagged tags []
  | tag (t r : List Char) : t ∈ tags → Tagged tags r → Tagged tags (t ++ r)
  | char (c : Char) (r : List Char) : c ≠ '<' → c ≠ '>' → Tagged tags r → Tagged tags (c :: r)

/-- The markup tags the script writes around sanitized text. -/
def strongTags : List (List Char) :=
  ["<strong>".toList, "</strong>".toList]

/-- The tags of a user message: the strong tags and the name-chip span. -/
def chipTags : List (List Char) :=
  ["<strong>".toList, "</strong>".toList, "<span class=\"name-chip\">".toList, "</span>".toList]


/-! ## Name capture: the three patterns of `maybeCaptureName` -/

/-- The test `IsWordChar` of a regular expression without the `u` flag:
`[A-Za-z0-9_]`. -/
def isWordChar (c : Char) : Bool :=
  let n := c.toNat
  (0x41 ≤ n && n ≤ 0x5A) || (0x61 ≤ n && n ≤ 0x7A) || (0x30 ≤ n && n ≤ 0x39) || n == 0x5F

/-- The class `[A-Za-zÁÉÍÓÚÑáéíóúñ' -]` of the three patterns.  The class is
closed under the case folding of the `i` flag, so the flag adds nothing. -/
def isNameChar (c : Char) : Bool :=
  let n := c.toNat
  (0x41 ≤ n && n ≤ 0x5A) || (0x61 ≤ n && n ≤ 0x7A) ||
  n == 0xC1 || n == 0xC9 || n == 0xCD || n == 0xD3 || n == 0xDA || n == 0xD1 ||
  n == 0xE1 || n == 0xE9 || n == 0xED || n == 0xF3 || n == 0xFA || n == 0xF1 ||
  n == 0x27 || n == 0x20 || n == 0x2D

/-- Case folding of the `i` flag (`Canonicalize` without the `u` flag) as far
as a pattern of ASCII characters can see it: an ASCII lower-case letter folds
to its upper-case letter; a character outside ASCII never folds into ASCII. -/
def canonicalize (c : Char) : Char :=
  let n := c.toNat
  if 0x61 ≤ n && n ≤ 0x7A then Char.ofNat (n - 0x20) else c

/-- A literal of ASCII characters matched under the `i` flag at the start of
the subject; the result is the rest of the subject. -/
def matchLit : List Char → List Char → Option (List Char)
  | [], s => some s
  | _ :: _, [] => none
  | p :: ps, c :: cs => if canonicalize p == canonicalize c then matchLit ps cs else none

/-- The assertion `\b` between the character `prev` (none at the start of the
text) and the rest `rest` of the text (empty at its end). -/
def atWordBoundary (prev : Option Char) (rest : List Char) : Bool :=
  (prev.map isWordChar).getD false != (rest.head?.map isWordChar).getD false

/-- Backtracking of the greedy group `([...]{2,40})` followed by `\b` at the
start of `r`: lengths are tried from `len` down to 2, the first one after which
`\b` holds gives the captured span. -/
def captureFrom (r : List Char) : Nat → Option (List Char)
  | 0 => none
  | j + 1 =>
    if 2 ≤ j + 1 && atWordBoundary (r.get? j) (r.drop (j + 1)) then some (r.take (j + 1))
    else captureFrom r j

/-- The part `([...]{2,40})\b` of a pattern at the start of `r`: the group first
takes as many class characters as it can, 40 at most. -/
def captureName (r : List Char) : Option (List Char) :=
  captureFrom r (min 40 (r.takeWhile isNameChar).length)

/-- Backtracking of the greedy `\s+` before the group: `k` whitespace characters
are consumed, for `k` from the given number down to 1. -/
def spacesThenName (r : List Char) : Nat → Option (List Char)
  | 0 => none
  | k + 1 =>
    match captureName (r.drop (k + 1)) with
    | some m => some m
    | none => spacesThenName r k

/-- The part `\s+([...]{2,40})\b` of a pattern at the start of `r`; the result is
the captured group `m[1]`. -/
def afterIntro (r : List Char) : Option (List Char) :=
  spacesThenName r (r.takeWhile isSpace).length

/-- One attempt of `\b<lit>\s+([...]{2,40})\b` at a position of the text, `prev`
being the character before it. -/
def introAt (lit : List Char) (prev : Option Char) (s : List Char) : Option (List Char) :=
  if atWordBoundary prev s then (matchLit lit s).bind afterIntro else none

/-- The call `text.match(/\b<lit>\s+([...]{2,40})\b/i)`: the attempt is made at
every position from left to right and the first success is the match. -/
def searchIntro (lit : List Char) : Option Char → List Char → Option (List Char)
  | prev, [] => introAt lit prev []
  | prev, c :: cs =>
    match introAt lit prev (c :: cs) with
    | some m => some m
    | none => searchIntro lit (some c) cs

/-- The part `(?:soy|i am)\s+([...]{2,40})\b` at the start of `s`: the second
alternative is tried when the first one fails. -/
def soyOrIAm (s : List Char) : Option (List Char) :=
  match (matchLit "soy".toList s).bind afterIntro with
  | some m => some m
  | none => (matchLit "i am".toList s).bind afterIntro

/-- Backtracking of the greedy `\s*` after `^`: `k` whitespace characters are
consumed, for `k` from the given number down to 0. -/
def leadingSpaces (text : List Char) : Nat → Option (List Char)
  | 0 => soyOrIAm text
  | k + 1 =>
    match soyOrIAm (text.drop (k + 1)) with
    | some m => some m
    | none => leadingSpaces text k

/-- First pattern: `/\bmy name is\s+([A-Za-zÁÉÍÓÚÑáéíóúñ' -]{2,40})\b/i`. -/
def matchMyNameIs (text : List Char) : Option (List Char) :=
  searchIntro "my name is".toList none text

/-- Second pattern: `/\bme llamo\s+([A-Za-zÁÉÍÓÚÑáéíóúñ' -]{2,40})\b/i`. -/
def matchMeLlamo (text : List Char) : Option (List Char) :=
  searchIntro "me llamo".toList none text

/-- Third pattern: `/^\s*(?:soy|i am)\s+([A-Za-zÁÉÍÓÚÑáéíóúñ' -]{2,40})\b/i`; the
anchor `^` leaves the start of the text as the only position. -/
def matchSoy (text : List Char) : Option (List Char) :=
  leadingSpaces text (text.takeWhile isSpace).length

/-- The captured group `m[1]` of `maybeCaptureName`: the patterns are tried in
order and the first one that matches decides. -/
def nameMatch (text : List Char) : Option (List Char) :=
  match matchMyNameIs text with
  | some m => some m
  | none =>
    match matchMeLlamo text with
    | some m => some m
    | none => matchSoy text

/-- The arrow function of `capitalizeName`:
`w[0]?.toUpperCase() + w.slice(1).toLowerCase()`.  For the empty token `w[0]` is
`undefined`, the optional call gives `undefined`, and `+` turns it into the
text `undefined`. -/
def capitalizeWord (w : List Char) : List Char :=
  (match w.head? with
    | some c => toUpperCase [c]
    | none => "undefined".toList) ++ toLowerCase (w.drop 1)

/-- The function `capitalizeName` of the script. -/
def capitalizeName (n : List Char) : List Char :=
  join " ".toList ((splitWs n).map capitalizeWord)

/-- Worker of `titleCaseSpec`: the whitespace-delimited tokens of a text, `cur`
being the token read so far, reversed. -/
def tokensAux : List Char → List Char → List (List Char)
  | cur, [] => if cur = [] then [] else [cur.reverse]
  | cur, c :: cs =>
    if isSpace c then
      if cur = [] then tokensAux [] cs else cur.reverse :: tokensAux [] cs
    else tokensAux (c :: cur) cs

/-- Title-casing as the specification words it: the whitespace-delimited tokens
of the text, each with its first character in upper case and its remainder in
lower case, joined by single spaces. -/
def titleCaseSpec (n : List Char) : List Char :=
  join " ".toList ((tokensAux [] n).map
    (fun w => toUpperCase (w.take 1) ++ toLowerCase (w.drop 1)))

/-- The text neither starts nor ends with whitespace. -/
def NoEdgeSpace (n : List Char) : Prop :=
  (∀ c, n.head? = some c → isSpace c = false) ∧ (∀ c, n.getLast? = some c → isSpace c = false)


/-! ## JSON values and `JSON.parse` -/

/-- A number as a JSON text writes it: `mant * 10 ^ exp`, negated when `neg`. -/
structure JNum where
  neg : Bool
  mant : Nat
  exp : Int

/-- The number is `0` or `-0` once read as a double: its digits are all zero, or
its magnitude is at most `2 ^ (-1075)`, half the smallest positive double (ties
round to even, that is to zero). -/
def JNum.isZero (n : JNum) : Bool :=
  n.mant == 0 || (decide (n.exp < 0) && decide (n.mant * 2 ^ 1075 ≤ 10 ^ n.exp.natAbs))

/-- A value that `JSON.parse` returns.  The fields of an object are kept in the
order of the text, duplicates included. -/
inductive JSValue where
  | null : JSValue
  | bool (b : Bool) : JSValue
  | num (n : JNum) : JSValue
  | str (s : List Char) : JSValue
  | arr (items : List JSValue) : JSValue
  | obj (fields : List (List Char × JSValue)) : JSValue

/-- JavaScript truthiness (`ToBoolean`). -/
def JSValue.truthy : JSValue → Bool
  | .null => false
  | .bool b => b
  | .num n => !n.isZero
  | .str s => !s.isEmpty
  | .arr _ => true
  | .obj _ => true

/-- The value is `null`. -/
def JSValue.isNull : JSValue → Bool
  | .null => true
  | _ => false

/-- Whitespace of the JSON grammar. -/
def isJsonWs (c : Char) : Bool :=
  c == ' ' || c == '\t' || c == '\n' || c == '\r'

/-- Leading JSON whitespace removed. -/
def skipWs (s : List Char) : List Char :=
  s.dropWhile isJsonWs

/-- A decimal digit. -/
def isDigit (c : Char) : Bool :=
  0x30 ≤ c.toNat && c.toNat ≤ 0x39

/-- The number a run of decimal digits writes. -/
def digitsValue (ds : List Char) : Nat :=
  ds.foldl (fun a c => 10 * a + (c.toNat - 0x30)) 0

/-- The value of a hexadecimal digit. -/
def hexValue (c : Char) : Option Nat :=
  let n := c.toNat
  if 0x30 ≤ n && n ≤ 0x39 then some (n - 0x30)
  else if 0x41 ≤ n && n ≤ 0x46 then some (n - 0x41 + 10)
  else if 0x61 ≤ n && n ≤ 0x66 then some (n - 0x61 + 10)
  else none

/-- The four hexadecimal digits of a `\u` escape: the code unit and the rest of
the text. -/
def parseHex4 (s : List Char) : Option (Nat × List Char) :=
  match s with
  | a :: b :: c :: d :: rest =>
    match hexValue a, hexValue b, hexValue c, hexValue d with
    | some x, some y, some z, some w => some (((x * 16 + y) * 16 + z) * 16 + w, rest)
    | _, _, _, _ => none
  | _ => none

/-- The body of a JSON string after its opening quote: the decoded text and the
rest after the closing quote.  A surrogate pair written as two `\u` escapes is
one character; a lone surrogate, which `List Char` cannot hold, is kept as
U+FFFD. -/
def parseStringBody : Nat → List Char → List Char → Option (List Char × List Char)
  | 0, _, _ => none
  | _ + 1, _, [] => none
  | fuel + 1, acc, c :: rest =>
    if c == '"' then some (acc.reverse, rest)
    else if c == '\\' then
      match rest with
      | [] => none
      | e :: rest2 =>
        if e == '"' || e == '\\' || e == '/' then parseStringBody fuel (e :: acc) rest2
        else if e == 'b' then parseStringBody fuel (Char.ofNat 8 :: acc) rest2
        else if e == 'f' then parseStringBody fuel (Char.ofNat 12 :: acc) rest2
        else if e == 'n' then parseStringBody fuel ('\n' :: acc) rest2
        else if e == 'r' then parseStringBody fuel ('\r' :: acc) rest2
        else if e == 't' then parseStringBody fuel ('\t' :: acc) rest2
        else if e == 'u' then
          match parseHex4 rest2 with
          | none => none
          | some (hi, rest3) =>
            if 0xD800 ≤ hi && hi < 0xDC00 then
              match rest3 with
              | b :: u :: rest4 =>
                match parseHex4 rest4 with
                | some (lo, rest5) =>
                  if b == '\\' && u == 'u' && 0xDC00 ≤ lo && lo < 0xE000 then
                    parseStringBody fuel
                      (Char.ofNat (0x10000 + (hi - 0xD800) * 0x400 + (lo - 0xDC00)) :: acc) rest5
                  else parseStringBody fuel (Char.ofNat 0xFFFD :: acc) rest3
                | none => parseStringBody fuel (Char.ofNat 0xFFFD :: acc) rest3
              | _ => parseStringBody fuel (Char.ofNat 0xFFFD :: acc) rest3
            else if 0xDC00 ≤ hi && hi < 0xE000 then
              parseStringBody fuel (Char.ofNat 0xFFFD :: acc) rest3
            else parseStringBody fuel (Char.ofNat hi :: acc) rest3
        else none
    else if c.toNat < 0x20 then none
    else parseStringBody fuel (c :: acc) rest

/-- A JSON number at the start of `s`:
`-? (0 | [1-9][0-9]*) (. [0-9]+)? ([eE] [+-]? [0-9]+)?`. -/
def parseNumber (s : List Char) : Option (JNum × List Char) :=
  let neg := s.head? == some '-'
  let s1 := if neg then s.drop 1 else s
  let intDs := if s1.head? == some '0' then ['0'] else s1.takeWhile isDigit
  if intDs.isEmpty then none
  else
    let s2 := s1.drop intDs.length
    let fracDs := if s2.head? == some '.' then (s2.drop 1).takeWhile isDigit else []
    if s2.head? == some '.' && fracDs.isEmpty then none
    else
      let s3 := if s2.head? == some '.' then s2.drop (1 + fracDs.length) else s2
      let mant := digitsValue (intDs ++ fracDs)
      if s3.head? == some 'e' || s3.head? == some 'E' then
        let s4 := s3.drop 1
        let eneg := s4.head? == some '-'
        let s5 := if s4.head? == some '-' || s4.head? == some '+' then s4.drop 1 else s4
        let expDs := s5.takeWhile isDigit
        if expDs.isEmpty then none
        else
          let e : Int := if eneg then - (digitsValue expDs : Int) else (digitsValue expDs : Int)
          some (⟨neg, mant, e - (fracDs.length : Int)⟩, s5.drop expDs.length)
      else some (⟨neg, mant, - (fracDs.length : Int)⟩, s3)

mutual

/-- A JSON value at the start of `s`, after optional whitespace: the value and
the rest of the text. -/
def parseValue : Nat → List Char → Option (JSValue × List Char)
  | 0, _ => none
  | fuel + 1, s =>
    match skipWs s with
    | [] => none
    | c :: rest =>
      if c == '{' then
        match skipWs rest with
        | [] => none
        | d :: rest2 =>
          if d == '}' then some (.obj [], rest2) else parseMembers fuel [] (d :: rest2)
      else if c == '[' then
        match skipWs rest with
        | [] => none
        | d :: rest2 =>
          if d == ']' then some (.arr [], rest2) else parseElements fuel [] (d :: rest2)
      else if c == '"' then
        (parseStringBody (rest.length + 1) [] rest).map (fun p => (.str p.1, p.2))
      else if "null".toList.isPrefixOf (c :: rest) then some (.null, rest.drop 3)
      else if "true".toList.isPrefixOf (c :: rest) then some (.bool true, rest.drop 3)
      else if "false".toList.isPrefixOf (c :: rest) then some (.bool false, rest.drop 4)
      else (parseNumber (c :: rest)).map (fun p => (.num p.1, p.2))

/-- The elements of an array after `[`: `acc` holds, reversed, the elements read
so far; the text continues with an element. -/
def parseElements : Nat → List JSValue → List Char → Option (JSValue × List Char)
  | 0, _, _ => none
  | fuel + 1, acc, s =>
    match parseValue fuel s with
    | none => none
    | some (v, rest) =>
      match skipWs rest with
      | [] => none
      | c :: rest2 =>
        if c == ']' then some (.arr (v :: acc).reverse, rest2)
        else if c == ',' then parseElements fuel (v :: acc) rest2
        else none

/-- The members of an object after `{`: `acc` holds, reversed, the members read
so far; the text continues with a member, whitespace skipped. -/
def parseMembers : Nat → List (List Char × JSValue) → List Char → Option (JSValue × List Char)
  | 0, _, _ => none
  | fuel + 1, acc, s =>
    match skipWs s with
    | [] => none
    | q :: rest =>
      if q == '"' then
        match parseStringBody (rest.length + 1) [] rest with
        | none => none
        | some (key, rest2) =>
          match skipWs rest2 with
          | [] => none
          | c :: rest3 =>
            if c == ':' then
              match parseValue fuel rest3 with
              | none => none
              | some (v, rest4) =>
                match skipWs rest4 with
                | [] => none
                | d :: rest5 =>
                  if d == '}' then some (.obj ((key, v) :: acc).reverse, rest5)
                  else if d == ',' then parseMembers fuel ((key, v) :: acc) rest5
                  else none
            else none
      else none

end

/-- The call `JSON.parse(text)`: the value when the whole text is one JSON
value between optional whitespace, `none` when `JSON.parse` throws a
`SyntaxError`.  Every nested call is made on a text at least as short, and two
calls in a row never on the same text, so the fuel is never used up. -/
def JSONparse (text : List Char) : Option JSValue :=
  match parseValue (2 * text.length + 2) text with
  | some (v, rest) => if (skipWs rest).isEmpty then some v else none
  | none => none

/-- Reading the property `key` of a value that is neither `null` nor
`undefined`: an own field of an object, the last one when the text repeated
the key.  Arrays, strings, numbers and booleans have none of the properties
the script reads by name (`reply`, `choices`, `message`, `content`). -/
def JSValue.get (v : JSValue) (key : List Char) : Option JSValue :=
  match v with
  | .obj fields => (fields.reverse.find? (fun p => p.1 == key)).map (fun p => p.2)
  | _ => none

/-- Reading the index `0` of a value that is neither `null` nor `undefined`. -/
def JSValue.first (v : JSValue) : Option JSValue :=
  match v with
  | .arr items => items.head?
  | .str s => s.head?.map (fun c => .str [c])
  | .obj _ => v.get "0".toList
  | _ => none

/-- The test of `??` and `?.`: the operand is `undefined` (`none`) or `null`. -/
def nullish : Option JSValue → Bool
  | none => true
  | some v => v.isNull

/-- The optional chain `x?.key`. -/
def optGet (x : Option JSValue) (key : List Char) : Option JSValue :=
  match x with
  | none => none
  | some v => if v.isNull then none else v.get key

/-- The optional chain `x?.[0]`. -/
def optFirst (x : Option JSValue) : Option JSValue :=
  match x with
  | none => none
  | some v => if v.isNull then none else v.first

/-! ## The persisted profile -/

/-- The literal `{ name: null, lastQuestions: [] }`. -/
def defaultProfile : JSValue :=
  .obj [("name".toList, .null), ("lastQuestions".toList, .arr [])]

/-- The function `loadProfile` of the script; `item` is what
`localStorage.getItem(MEMORY_KEY)` returns, `none` standing for `null` (no such
key).  `JSON.parse` first turns its argument into text, `null` into the text
`null`.  The result is `.ok v` when the function returns `v` and `.error` when
it raises. -/
def loadProfile (item : Option (List Char)) : Except Unit JSValue :=
  match JSONparse (item.getD "null".toList) with
  | some v => .ok (if v.truthy then v else defaultProfile)
  | none => .ok defaultProfile


/-! ## Page state and the submit handler -/

/-- The constant `SYSTEM_PROMPT`. -/
def SYSTEM_PROMPT : List Char :=
  ("\nYou are \"L’Oréal Beauty Chat\"—an assistant that ONLY answers questions about\n" ++
   "L’Oréal products, beauty routines, and recommendations (skincare, haircare,\n" ++
   "makeup, suncare, fragrance). If asked unrelated topics, politely refuse and\n" ++
   "say you can only help with L’Oréal beauty questions.\n" ++
   "\n" ++
   "Personalize by asking for skin/hair type, concerns, climate, fragrance\n" ++
   "preferences, and budget. Give concise, step-by-step guidance and mention\n" ++
   "L’Oréal lines (e.g., Revitalift, Elvive, Infallible) when helpful. No medical claims.\n").toList

/-- The `role` of a conversation entry. -/
inductive Role where
  | system
  | user
  | assistant
  deriving DecidableEq

/-- An entry `{ role, content }` of the conversation.  The content of an
assistant entry is whatever value the reply expression gave. -/
structure Message where
  role : Role
  content : JSValue

/-- The second argument of `addMessage`. -/
inductive Who where
  | user
  | bot
  deriving DecidableEq

/-- The profile object in the shape the script gives it: `name` is `null`
(`none`) or a text, `lastQuestions` a list of texts. -/
structure Profile where
  name : Option (List Char)
  lastQuestions : List (List Char)

/-- What the script reads and writes.  `saved` lists the profiles handed to
`saveProfile`, `rendered` the arguments of the calls of `addMessage`,
`requests` the `messages` arrays posted by `fetch`, each in order of time;
`composerEnabled` is the negation of `userInput.disabled`, `focusCalls` counts
`userInput.focus()`; `lastQuestion` is the text of the banner element, `none`
when the page has no such element. -/
structure State where
  profile : Profile
  saved : List Profile
  messages : List Message
  rendered : List (JSValue × Who)
  composerEnabled : Bool
  focusCalls : Nat
  inputValue : List Char
  lastQuestion : Option (List Char)
  requests : List (List Message)

/-- How the request of one submission ends: `fetch` or `resp.text()` rejects
with an error of the given message, or a response arrives with a status and a
body. -/
inductive FetchResult where
  | rejected (message : List Char)
  | response (status : Nat) (raw : List Char)

/-- What the environment decides for one submission: the flag
`navigator.onLine`, the end of the request, and the message the engine gives
the `TypeError` of reading a property of `null`. -/
structure World where
  onLine : Bool
  result : FetchResult
  nullReadMessage : List Char

/-- The initial value of the conversation store `messages`. -/
def initialMessages : List Message :=
  [⟨.system, .str SYSTEM_PROMPT⟩]

/-- The function `addMessage`: `html` becomes the markup of a new node of the
chat window. -/
def addMessage (html : JSValue) (who : Who) (s : State) : State :=
  { s with rendered := s.rendered ++ [(html, who)] }

/-- The function `setComposerEnabled`. -/
def setComposerEnabled (enabled : Bool) (s : State) : State :=
  { s with
    composerEnabled := enabled
    focusCalls := if enabled then s.focusCalls + 1 else s.focusCalls }

/-- The function `saveProfile`, called on the profile of the state. -/
def saveProfile (s : State) : State :=
  { s with saved := s.saved ++ [s.profile] }

/-- The acknowledgment `maybeCaptureName` renders for the stored name. -/
def nameAck (name : List Char) : JSValue :=
  .str ("Nice to meet you, <strong>".toList ++ sanitize name ++
    "</strong>! I’ll remember your name for this chat.".toList)

/-- The function `maybeCaptureName` of the script. -/
def maybeCaptureName (text : List Char) (s : State) : State :=
  match nameMatch text with
  | none => s
  | some m1 =>
    if m1.isEmpty then s
    else
      let name := capitalizeName (trim m1)
      let s1 := { s with profile := { s.profile with name := some name } }
      addMessage (nameAck name) .bot (saveProfile s1)

/-- The function `makeContextNote` of the script. -/
def makeContextNote (p : Profile) : List Char :=
  let namePart :=
    match nameTruthy p.name with
    | some n => "User name: ".toList ++ n ++ ".".toList
    | none => []
  let lastQPart :=
    if p.lastQuestions.length ≠ 0 then
      "Recent questions: ".toList ++
        join ", ".toList (p.lastQuestions.map (fun q => "\"".toList ++ q ++ "\"".toList)) ++
        ".".toList
    else []
  trim ("Context note for assistant: ".toList ++ namePart ++ " ".toList ++ lastQPart)

/-- Worker of `decimal`. -/
def decimalAux : Nat → Nat → List Char → List Char
  | 0, _, acc => acc
  | fuel + 1, n, acc =>
    if n / 10 = 0 then Char.ofNat (0x30 + n % 10) :: acc
    else decimalAux fuel (n / 10) (Char.ofNat (0x30 + n % 10) :: acc)

/-- A natural number in decimal, as a template literal writes `resp.status`. -/
def decimal (n : Nat) : List Char :=
  decimalAux (n + 1) n []

/-- The property `resp.ok`: the status is in the range 200 to 299. -/
def isOk (status : Nat) : Bool :=
  200 ≤ status && status ≤ 299

/-- The operator `a ?? b`. -/
def coalesce (a b : Option JSValue) : Option JSValue :=
  if nullish a then b else a

/-- The operator `a ?? b` for a right operand that is a value. -/
def coalesceValue (a : Option JSValue) (b : JSValue) : JSValue :=
  match a with
  | none => b
  | some v => if v.isNull then b else v

/-- The literal the reply expression ends with. -/
def noResponse : JSValue :=
  .str "Sorry—no response was returned.".toList

/-- The chain `data.choices?.[0]?.message?.content`. -/
def choicesContent (data : JSValue) : Option JSValue :=
  optGet (optGet (optFirst (data.get "choices".toList)) "message".toList) "content".toList

/-- The expression
`data.reply ?? data.choices?.[0]?.message?.content ?? "Sorry—no response was returned."`:
`.ok` with its value, or `.error` with the message of the `TypeError` that
`data.reply` throws when `data` is `null`. -/
def botText (nullReadMessage : List Char) (data : JSValue) : Except (List Char) JSValue :=
  if data.isNull then .error nullReadMessage
  else
    .ok (coalesceValue
      (coalesce (data.get "reply".toList) (choicesContent data)) noResponse)

/-- The array `turnMessages` of the submit handler. -/
def turnMessages (contextNote : List Char) (messages : List Message) (userText : List Char) :
    List Message :=
  [⟨.system, .str SYSTEM_PROMPT⟩, ⟨.system, .str contextNote⟩] ++
    messages.filter (fun m => m.role ≠ .system) ++ [⟨.user, .str userText⟩]

/-- The `try` block of the submit handler after the request was posted: `.error`
with the message of the error thrown, or `.ok` with the state at the end of
the block. -/
def tryBlock (w : World) (userText : List Char) (s : State) : Except (List Char) State :=
  match w.result with
  | .rejected message => .error message
  | .response status raw =>
    if !isOk status then .error ("Worker HTTP ".toList ++ decimal status ++ ": ".toList ++ raw)
    else
      match JSONparse raw with
      | none => .error ("Non-JSON from worker: ".toList ++ raw)
      | some data =>
        match botText w.nullReadMessage data with
        | .error message => .error message
        | .ok reply =>
          let s1 := addMessage reply .bot s
          .ok { s1 with
            messages := s1.messages ++ [⟨.user, .str userText⟩, ⟨.assistant, reply⟩] }

/-- The markup the `catch` block renders for an error of the given message. -/
def errorHtml (message : List Char) : JSValue :=
  .str ("⚠️ <strong>Error:</strong> ".toList ++ sanitize message)

/-- The warning of the offline guard. -/
def offlineWarning : JSValue :=
  .str "⚠️ You’re offline. Please reconnect before sending messages.".toList

/-- The submit handler up to the call of `fetch`, for a submission that passed
both guards: banner, user message, composer off, name capture, question
history. -/
def beforeFetch (userText : List Char) (s : State) : State :=
  let s1 := { s with
    lastQuestion := s.lastQuestion.map
      (fun _ => "Your last question: “".toList ++ userText ++ "”".toList) }
  let s2 := addMessage (.str (renderWithNameChip s1.profile.name userText)) .user s1
  let s3 := setComposerEnabled false { s2 with inputValue := [] }
  let s4 := maybeCaptureName userText s3
  if userText.isEmpty then s4
  else
    saveProfile { s4 with
      profile := { s4.profile with
        lastQuestions := (userText :: s4.profile.lastQuestions).take 5 } }

/-- The submit handler of the chat form, run to its end; the text submitted is
the value of the input field. -/
def submit (w : World) (s : State) : State :=
  let userText := trim s.inputValue
  if userText.isEmpty then s
  else if !w.onLine then setComposerEnabled true (addMessage offlineWarning .bot s)
  else
    let s5 := beforeFetch userText s
    let contextNote := makeContextNote s5.profile
    let s6 := { s5 with requests := s5.requests ++ [turnMessages contextNote s5.messages userText] }
    match tryBlock w userText s6 with
    | .ok s7 => setComposerEnabled true s7
    | .error message => setComposerEnabled true (addMessage (errorHtml message) .bot s6)

/-- The submission is accepted: the trimmed text is not empty and the page is
online. -/
def Accepted (w : World) (s : State) : Prop :=
  trim s.inputValue ≠ [] ∧ w.onLine = true

/-- The messages the handler renders before the request: the user message,
then the acknowledgment when a name was captured. -/
def renderedBeforeFetch (s : State) : List (JSValue × Who) :=
  let userText := trim s.inputValue
  (.str (renderWithNameChip s.profile.name userText), Who.user) ::
    (match nameMatch userText with
      | none => []
      | some m1 => if m1.isEmpty then [] else [(nameAck (capitalizeName (trim m1)), Who.bot)])

/-- The greeting rendered when the page loads. -/
def greeting : JSValue :=
  .str ("👋 Hi! I’m your L’Oréal beauty assistant. Ask me about products or routines " ++
    "and I’ll tailor suggestions for you.").toList

/-- The page right after loading with the profile `p`, the text `text` typed
into the input field. -/
def freshState (p : Profile) (text : List Char) : State :=
  { profile := p
    saved := []
    messages := initialMessages
    rendered := [(greeting, Who.bot)]
    composerEnabled := true
    focusCalls := 0
    inputValue := text
    lastQuestion := some []
    requests := [] }

/-- A field of a parsed body is present: it is neither `undefined` nor `null`. -/
def Present (x : Option JSValue) (v : JSValue) : Prop :=
  x = some v ∧ v.isNull = false

/-- A sequence of submissions: before each one the user types a text and the
environment fixes how the turn goes. -/
def submitAll : State → List (World × List Char) → State
  | s, [] => s
  | s, (w, text) :: rest => submitAll (submit w { s with inputValue := text }) rest


/-! ## Sanitization -/

theorem replaceAux_skip (pat rep : List Char) :
    ∀ (u t : List Char), replaceAux pat rep u.length (u ++ t) = replaceAux pat rep 0 t
  | [], t => by cases t <;> simp [replaceAux]
  | _ :: u, t => by simpa [replaceAux] using replaceAux_skip pat rep u t

theorem replaceAll_nil (pat rep : List Char) : replaceAll pat rep [] = [] := by
  simp [replaceAll, replaceAux]

theorem replaceAll_cons_of_no_match (pat rep : List Char) (c : Char) (s : List Char)
    (h : pat.isPrefixOf (c :: s) = false) :
    replaceAll pat rep (c :: s) = c :: replaceAll pat rep s := by
  simp [replaceAll, replaceAux, h]

theorem replaceAll_at_match (p : Char) (pat rep t : List Char) :
    replaceAll (p :: pat) rep ((p :: pat) ++ t) = rep ++ replaceAll (p :: pat) rep t := by
  have h : (p :: pat).isPrefixOf (p :: (pat ++ t)) = true := by
    simp [List.isPrefixOf]
  have e : replaceAux (p :: pat) rep 0 (p :: (pat ++ t)) =
      rep ++ replaceAux (p :: pat) rep pat.length (pat ++ t) := by
    simp [replaceAux, h]
  rw [replaceAll, List.cons_append, e, replaceAux_skip]
  rfl

theorem replaceAll_single_cons (p : Char) (rep : List Char) (c : Char) (s : List Char) :
    replaceAll [p] rep (c :: s) = (if c = p then rep else [c]) ++ replaceAll [p] rep s := by
  by_cases h : c = p
  · subst h
    simpa using replaceAll_at_match c [] rep s
  · have hp : [p].isPrefixOf (c :: s) = false := by
      simp [List.isPrefixOf, Ne.symm h]
    simp [replaceAll_cons_of_no_match _ _ _ _ hp, h]

theorem replaceAll_single_append (p : Char) (rep a b : List Char) :
    replaceAll [p] rep (a ++ b) = replaceAll [p] rep a ++ replaceAll [p] rep b := by
  induction a with
  | nil => simp [replaceAll_nil]
  | cons c a ih => simp [replaceAll_single_cons, ih]

theorem amp_toList : "&".toList = ['&'] := rfl
theorem lt_toList : "<".toList = ['<'] := rfl
theorem gt_toList : ">".toList = ['>'] := rfl
theorem ampEnt_toList : "&amp;".toList = ['&', 'a', 'm', 'p', ';'] := rfl
theorem ltEnt_toList : "&lt;".toList = ['&', 'l', 't', ';'] := rfl
theorem gtEnt_toList : "&gt;".toList = ['&', 'g', 't', ';'] := rfl
theorem openTag_toList : "<strong>".toList = ['<', 's', 't', 'r', 'o', 'n', 'g', '>'] := rfl
theorem closeTag_toList :
    "</strong>".toList = ['<', '/', 's', 't', 'r', 'o', 'n', 'g', '>'] := rfl
theorem openEnt_toList : "&lt;strong&gt;".toList =
    ['&', 'l', 't', ';', 's', 't', 'r', 'o', 'n', 'g', '&', 'g', 't', ';'] := rfl
theorem closeEnt_toList : "&lt;/strong&gt;".toList =
    ['&', 'l', 't', ';', '/', 's', 't', 'r', 'o', 'n', 'g', '&', 'g', 't', ';'] := rfl

theorem escape_steps (s : List Char) :
    replaceAll ">".toList "&gt;".toList
      (replaceAll "<".toList "&lt;".toList (replaceAll "&".toList "&amp;".toList s)) =
    escapeAll s := by
  simp only [amp_toList, lt_toList, gt_toList, ampEnt_toList, ltEnt_toList, gtEnt_toList]
  induction s with
  | nil => simp [replaceAll_nil, escapeAll]
  | cons c s ih =>
    rw [replaceAll_single_cons, replaceAll_single_append, replaceAll_single_append, ih]
    simp only [escapeAll, escChar, ampEnt_toList, ltEnt_toList, gtEnt_toList]
    congr 1
    by_cases h1 : c = '&'
    · subst h1; decide
    · by_cases h2 : c = '<'
      · subst h2; decide
      · by_cases h3 : c = '>'
        · subst h3; decide
        · simp [h1, h2, h3, replaceAll_single_cons, replaceAll_nil]

theorem escapeAll_cons_plain (c : Char) (t : List Char) (h : Plain c) :
    escapeAll (c :: t) = c :: escapeAll t := by
  obtain ⟨h1, h2, h3⟩ := h
  simp [escapeAll, escChar, h1, h2, h3]

theorem escChar_cases (c : Char) :
    (Plain c ∧ escChar c = [c]) ∨ (c = '&' ∧ escChar c = ['&', 'a', 'm', 'p', ';']) ∨
    (c = '<' ∧ escChar c = ['&', 'l', 't', ';']) ∨
    (c = '>' ∧ escChar c = ['&', 'g', 't', ';']) := by
  by_cases h1 : c = '&'
  · subst h1; right; left; exact ⟨rfl, rfl⟩
  · by_cases h2 : c = '<'
    · subst h2; right; right; left; exact ⟨rfl, rfl⟩
    · by_cases h3 : c = '>'
      · subst h3; right; right; right; exact ⟨rfl, rfl⟩
      · left; exact ⟨⟨h1, h2, h3⟩, by simp [escChar, h1, h2, h3]⟩

theorem prefix_escapeAll_plain (w v : List Char) (hw : ∀ k ∈ w, Plain k) :
    ∀ t : List Char, (w ++ v).isPrefixOf (escapeAll t) = true →
      ∃ r, t = w ++ r ∧ v.isPrefixOf (escapeAll r) = true := by
  induction w with
  | nil => intro t h; exact ⟨t, rfl, by simpa using h⟩
  | cons k w ih =>
    intro t h
    have hk : Plain k := hw k (List.mem_cons_self _ _)
    obtain ⟨k1, k2, k3⟩ := hk
    cases t with
    | nil => simp [escapeAll, List.isPrefixOf] at h
    | cons c t =>
      rcases escChar_cases c with ⟨hc, e⟩ | ⟨_, e⟩ | ⟨_, e⟩ | ⟨_, e⟩
      · simp only [escapeAll, e, List.cons_append, List.nil_append, List.isPrefixOf,
          Bool.and_eq_true, beq_iff_eq] at h
        obtain ⟨r, hr, hv⟩ := ih (fun x hx => hw x (List.mem_cons_of_mem _ hx)) t h.2
        exact ⟨r, by rw [h.1, hr]; rfl, hv⟩
      all_goals
        simp only [escapeAll, e, List.cons_append, List.isPrefixOf,
          Bool.and_eq_true, beq_iff_eq] at h
        exact absurd h.1 k1

theorem gtEnt_prefix_escapeAll (t : List Char)
    (h : ['&', 'g', 't', ';'].isPrefixOf (escapeAll t) = true) : ∃ r, t = '>' :: r := by
  cases t with
  | nil => simp [escapeAll, List.isPrefixOf] at h
  | cons c t =>
    rcases escChar_cases c with ⟨hc, e⟩ | ⟨_, e⟩ | ⟨_, e⟩ | ⟨hc, e⟩
    · simp only [escapeAll, e, List.cons_append, List.nil_append, List.isPrefixOf,
        Bool.and_eq_true, beq_iff_eq] at h
      exact absurd h.1.symm hc.1
    · simp [escapeAll, e, List.isPrefixOf] at h
    · simp [escapeAll, e, List.isPrefixOf] at h
    · exact ⟨t, by rw [hc]⟩

theorem plain_strong : ∀ k ∈ ['s', 't', 'r', 'o', 'n', 'g'], Plain k := by
  intro k hk
  simp only [List.mem_cons, List.mem_singleton, List.not_mem_nil, or_false] at hk
  rcases hk with h | h | h | h | h | h <;> subst h <;> exact ⟨by decide, by decide, by decide⟩

theorem plain_slash_strong : ∀ k ∈ ['/', 's', 't', 'r', 'o', 'n', 'g'], Plain k := by
  intro k hk
  simp only [List.mem_cons, List.mem_singleton, List.not_mem_nil, or_false] at hk
  rcases hk with h | h | h | h | h | h | h <;> subst h <;>
    exact ⟨by decide, by decide, by decide⟩

/-- An entity for `strong>` in the escaped text comes from `strong>` in the text. -/
theorem strongEnt_prefix_escapeAll (t : List Char)
    (h : ['s', 't', 'r', 'o', 'n', 'g', '&', 'g', 't', ';'].isPrefixOf (escapeAll t) = true) :
    ['s', 't', 'r', 'o', 'n', 'g', '>'].isPrefixOf t = true := by
  obtain ⟨r, hr, hv⟩ :=
    prefix_escapeAll_plain ['s', 't', 'r', 'o', 'n', 'g'] ['&', 'g', 't', ';'] plain_strong t h
  obtain ⟨r2, hr2⟩ := gtEnt_prefix_escapeAll r hv
  subst hr2; subst hr
  simp [List.isPrefixOf]

theorem replaceAll_cons_ne (p : Char) (pat rep : List Char) (c : Char) (u : List Char)
    (h : c ≠ p) : replaceAll (p :: pat) rep (c :: u) = c :: replaceAll (p :: pat) rep u := by
  apply replaceAll_cons_of_no_match
  simp [List.isPrefixOf, Ne.symm h]

theorem reopenStrong_nil : reopenStrong [] = [] := by
  simp [reopenStrong, escapeAll, replaceAll_nil]

theorem reopenStrong_open (t : List Char) :
    reopenStrong ("<strong>".toList ++ t) = "<strong>".toList ++ reopenStrong t := by
  have e : escapeAll ("<strong>".toList ++ t) = "&lt;strong&gt;".toList ++ escapeAll t := by
    simp [openTag_toList, openEnt_toList, escapeAll, escChar]
  rw [reopenStrong, e, openEnt_toList, replaceAll_at_match]
  rfl

theorem reopenStrong_cons (c : Char) (t : List Char)
    (h : "<strong>".toList.isPrefixOf (c :: t) = false) :
    reopenStrong (c :: t) = escChar c ++ reopenStrong t := by
  simp only [reopenStrong, escapeAll, openEnt_toList, openTag_toList] at *
  rcases escChar_cases c with ⟨hc, e⟩ | ⟨_, e⟩ | ⟨_, e⟩ | ⟨hc, e⟩
  · rw [e]
    exact replaceAll_cons_ne _ _ _ _ _ hc.1
  · rw [e]
    simp only [List.cons_append, List.nil_append]
    rw [replaceAll_cons_of_no_match _ _ _ _ (by simp [List.isPrefixOf]),
      replaceAll_cons_ne _ _ _ _ _ (by decide), replaceAll_cons_ne _ _ _ _ _ (by decide),
      replaceAll_cons_ne _ _ _ _ _ (by decide), replaceAll_cons_ne _ _ _ _ _ (by decide)]
  · rename_i hc
    subst hc
    rw [e]
    simp only [List.cons_append, List.nil_append]
    have hn : ['s', 't', 'r', 'o', 'n', 'g', '&', 'g', 't', ';'].isPrefixOf (escapeAll t)
        = false := by
      cases hp : ['s', 't', 'r', 'o', 'n', 'g', '&', 'g', 't', ';'].isPrefixOf (escapeAll t)
      · rfl
      · have hq := strongEnt_prefix_escapeAll t hp
        have h2 : ['s', 't', 'r', 'o', 'n', 'g', '>'].isPrefixOf t = false := by
          simpa only [List.isPrefixOf, beq_self_eq_true, Bool.true_and] using h
        rw [hq] at h2
        exact absurd h2 (by decide)
    rw [replaceAll_cons_of_no_match _ _ _ _ (by simpa [List.isPrefixOf] using hn),
      replaceAll_cons_ne _ _ _ _ _ (by decide), replaceAll_cons_ne _ _ _ _ _ (by decide),
      replaceAll_cons_ne _ _ _ _ _ (by decide)]
  · rw [e]
    simp only [List.cons_append, List.nil_append]
    rw [replaceAll_cons_of_no_match _ _ _ _ (by simp [List.isPrefixOf]),
      replaceAll_cons_ne _ _ _ _ _ (by decide), replaceAll_cons_ne _ _ _ _ _ (by decide),
      replaceAll_cons_ne _ _ _ _ _ (by decide)]

theorem prefix_reopenStrong_plain (w v : List Char) (hw : ∀ k ∈ w, Plain k) :
    ∀ t : List Char, (w ++ v).isPrefixOf (reopenStrong t) = true →
      ∃ r, t = w ++ r ∧ v.isPrefixOf (reopenStrong r) = true := by
  induction w with
  | nil => intro t h; exact ⟨t, rfl, by simpa using h⟩
  | cons k w ih =>
    intro t h
    obtain ⟨k1, k2, k3⟩ := hw k (List.mem_cons_self _ _)
    cases t with
    | nil => simp [reopenStrong_nil, List.isPrefixOf] at h
    | cons c t =>
      cases hp : "<strong>".toList.isPrefixOf (c :: t)
      · rw [reopenStrong_cons c t hp] at h
        rcases escChar_cases c with ⟨hc, e⟩ | ⟨_, e⟩ | ⟨_, e⟩ | ⟨_, e⟩
        · simp only [e, List.cons_append, List.nil_append, List.isPrefixOf,
            Bool.and_eq_true, beq_iff_eq] at h
          obtain ⟨r, hr, hv⟩ := ih (fun x hx => hw x (List.mem_cons_of_mem _ hx)) t h.2
          exact ⟨r, by rw [h.1, hr]; rfl, hv⟩
        all_goals
          simp only [e, List.cons_append, List.isPrefixOf, Bool.and_eq_true, beq_iff_eq] at h
          exact absurd h.1 k1
      · obtain ⟨r, hr⟩ := List.isPrefixOf_iff_prefix.mp hp
        rw [← hr, reopenStrong_open, openTag_toList] at h
        simp only [List.cons_append, List.isPrefixOf, Bool.and_eq_true, beq_iff_eq] at h
        exact absurd h.1 k2

theorem gtEnt_prefix_reopenStrong (t : List Char)
    (h : ['&', 'g', 't', ';'].isPrefixOf (reopenStrong t) = true) : ∃ r, t = '>' :: r := by
  cases t with
  | nil => simp [reopenStrong_nil, List.isPrefixOf] at h
  | cons c t =>
    cases hp : "<strong>".toList.isPrefixOf (c :: t)
    · rw [reopenStrong_cons c t hp] at h
      rcases escChar_cases c with ⟨hc, e⟩ | ⟨_, e⟩ | ⟨_, e⟩ | ⟨hc, e⟩
      · simp only [e, List.cons_append, List.nil_append, List.isPrefixOf,
          Bool.and_eq_true, beq_iff_eq] at h
        exact absurd h.1.symm hc.1
      · simp [e, List.isPrefixOf] at h
      · simp [e, List.isPrefixOf] at h
      · exact ⟨t, by rw [hc]⟩
    · obtain ⟨r, hr⟩ := List.isPrefixOf_iff_prefix.mp hp
      rw [← hr, reopenStrong_open, openTag_toList] at h
      simp [List.isPrefixOf] at h

/-- An entity for `/strong>` after the fourth replacement comes from `/strong>`
in the text. -/
theorem closeEnt_prefix_reopenStrong (t : List Char)
    (h : ['/', 's', 't', 'r', 'o', 'n', 'g', '&', 'g', 't', ';'].isPrefixOf (reopenStrong t)
      = true) :
    ['/', 's', 't', 'r', 'o', 'n', 'g', '>'].isPrefixOf t = true := by
  obtain ⟨r, hr, hv⟩ := prefix_reopenStrong_plain ['/', 's', 't', 'r', 'o', 'n', 'g']
    ['&', 'g', 't', ';'] plain_slash_strong t h
  obtain ⟨r2, hr2⟩ := gtEnt_prefix_reopenStrong r hv
  subst hr2; subst hr
  simp [List.isPrefixOf]

theorem sanitize_eq_reopen (s : List Char) :
    sanitize s = replaceAll "&lt;/strong&gt;".toList "</strong>".toList (reopenStrong s) := by
  rw [sanitize, escape_steps, reopenStrong]

theorem sanitize_nil : sanitize [] = [] := by
  simp [sanitize_eq_reopen, reopenStrong_nil, replaceAll_nil]

theorem sanitize_open (t : List Char) :
    sanitize ("<strong>".toList ++ t) = "<strong>".toList ++ sanitize t := by
  rw [sanitize_eq_reopen, sanitize_eq_reopen, reopenStrong_open, closeEnt_toList,
    openTag_toList]
  simp only [List.cons_append, List.nil_append]
  rw [replaceAll_cons_ne _ _ _ _ _ (by decide), replaceAll_cons_ne _ _ _ _ _ (by decide),
    replaceAll_cons_ne _ _ _ _ _ (by decide), replaceAll_cons_ne _ _ _ _ _ (by decide),
    replaceAll_cons_ne _ _ _ _ _ (by decide), replaceAll_cons_ne _ _ _ _ _ (by decide),
    replaceAll_cons_ne _ _ _ _ _ (by decide), replaceAll_cons_ne _ _ _ _ _ (by decide)]

theorem reopenStrong_close (t : List Char) :
    reopenStrong ("</strong>".toList ++ t) = "&lt;/strong&gt;".toList ++ reopenStrong t := by
  rw [closeTag_toList, closeEnt_toList]
  simp only [List.cons_append, List.nil_append]
  rw [reopenStrong_cons _ _ (by simp [openTag_toList, List.isPrefixOf]),
    reopenStrong_cons _ _ (by simp [openTag_toList, List.isPrefixOf]),
    reopenStrong_cons _ _ (by simp [openTag_toList, List.isPrefixOf]),
    reopenStrong_cons _ _ (by simp [openTag_toList, List.isPrefixOf]),
    reopenStrong_cons _ _ (by simp [openTag_toList, List.isPrefixOf]),
    reopenStrong_cons _ _ (by simp [openTag_toList, List.isPrefixOf]),
    reopenStrong_cons _ _ (by simp [openTag_toList, List.isPrefixOf]),
    reopenStrong_cons _ _ (by simp [openTag_toList, List.isPrefixOf]),
    reopenStrong_cons _ _ (by simp [openTag_toList, List.isPrefixOf])]
  simp [escChar]

theorem sanitize_close (t : List Char) :
    sanitize ("</strong>".toList ++ t) = "</strong>".toList ++ sanitize t := by
  rw [sanitize_eq_reopen, sanitize_eq_reopen, reopenStrong_close, closeEnt_toList,
    replaceAll_at_match]

theorem sanitize_cons (c : Char) (t : List Char)
    (h1 : "<strong>".toList.isPrefixOf (c :: t) = false)
    (h2 : "</strong>".toList.isPrefixOf (c :: t) = false) :
    sanitize (c :: t) = escChar c ++ sanitize t := by
  rw [sanitize_eq_reopen, sanitize_eq_reopen, reopenStrong_cons c t h1, closeEnt_toList]
  rcases escChar_cases c with ⟨hc, e⟩ | ⟨_, e⟩ | ⟨_, e⟩ | ⟨hc, e⟩
  · rw [e]
    exact replaceAll_cons_ne _ _ _ _ _ hc.1
  · rw [e]
    simp only [List.cons_append, List.nil_append]
    rw [replaceAll_cons_of_no_match _ _ _ _ (by simp [List.isPrefixOf]),
      replaceAll_cons_ne _ _ _ _ _ (by decide), replaceAll_cons_ne _ _ _ _ _ (by decide),
      replaceAll_cons_ne _ _ _ _ _ (by decide), replaceAll_cons_ne _ _ _ _ _ (by decide)]
  · rename_i hc
    subst hc
    rw [e]
    simp only [List.cons_append, List.nil_append]
    have hn : ['/', 's', 't', 'r', 'o', 'n', 'g', '&', 'g', 't', ';'].isPrefixOf
        (reopenStrong t) = false := by
      cases hp : ['/', 's', 't', 'r', 'o', 'n', 'g', '&', 'g', 't', ';'].isPrefixOf
          (reopenStrong t)
      · rfl
      · have hq := closeEnt_prefix_reopenStrong t hp
        have h3 : ['/', 's', 't', 'r', 'o', 'n', 'g', '>'].isPrefixOf t = false := by
          simpa only [closeTag_toList, List.isPrefixOf, beq_self_eq_true, Bool.true_and]
            using h2
        rw [hq] at h3
        exact absurd h3 (by decide)
    rw [replaceAll_cons_of_no_match _ _ _ _ (by simpa [List.isPrefixOf] using hn),
      replaceAll_cons_ne _ _ _ _ _ (by decide), replaceAll_cons_ne _ _ _ _ _ (by decide),
      replaceAll_cons_ne _ _ _ _ _ (by decide)]
  · rw [e]
    simp only [List.cons_append, List.nil_append]
    rw [replaceAll_cons_of_no_match _ _ _ _ (by simp [List.isPrefixOf]),
      replaceAll_cons_ne _ _ _ _ _ (by decide), replaceAll_cons_ne _ _ _ _ _ (by decide),
      replaceAll_cons_ne _ _ _ _ _ (by decide)]

theorem sanitizeSpecAux_skip :
    ∀ (u t : List Char), sanitizeSpecAux u.length (u ++ t) = sanitizeSpecAux 0 t
  | [], t => by cases t <;> simp [sanitizeSpecAux]
  | _ :: u, t => by simpa [sanitizeSpecAux] using sanitizeSpecAux_skip u t

theorem sanitize_eq_spec_aux : ∀ (n : Nat) (s : List Char), s.length ≤ n →
    sanitize s = sanitizeSpec s := by
  intro n
  induction n with
  | zero =>
    intro s hs
    have : s = [] := List.length_eq_zero.mp (Nat.le_zero.mp hs)
    subst this
    simp [sanitize_nil, sanitizeSpec, sanitizeSpecAux]
  | succ n ih =>
    intro s hs
    cases s with
    | nil => simp [sanitize_nil, sanitizeSpec, sanitizeSpecAux]
    | cons c t =>
      cases h1 : "<strong>".toList.isPrefixOf (c :: t)
      · cases h2 : "</strong>".toList.isPrefixOf (c :: t)
        · rw [sanitize_cons c t h1 h2, ih t (by simpa using hs)]
          simp only [sanitizeSpec, sanitizeSpecAux, h1, h2]
          rfl
        · obtain ⟨r, hr⟩ := List.isPrefixOf_iff_prefix.mp h2
          have hl : r.length ≤ n := by
            have := congrArg List.length hr
            simp [closeTag_toList] at this hs
            omega
          have ht : t = ['/', 's', 't', 'r', 'o', 'n', 'g', '>'] ++ r := by
            rw [closeTag_toList] at hr
            simp only [List.cons_append, List.nil_append, List.cons.injEq] at hr
            simp [← hr.2]
          rw [← hr, sanitize_close, ih r hl, hr]
          simp only [sanitizeSpec, sanitizeSpecAux, h1, h2, if_true]
          rw [if_neg (by decide), ht]
          exact congrArg _ (sanitizeSpecAux_skip ['/', 's', 't', 'r', 'o', 'n', 'g', '>'] r).symm
      · obtain ⟨r, hr⟩ := List.isPrefixOf_iff_prefix.mp h1
        have hl : r.length ≤ n := by
          have := congrArg List.length hr
          simp [openTag_toList] at this hs
          omega
        have ht : t = ['s', 't', 'r', 'o', 'n', 'g', '>'] ++ r := by
          rw [openTag_toList] at hr
          simp only [List.cons_append, List.nil_append, List.cons.injEq] at hr
          simp [← hr.2]
        rw [← hr, sanitize_open, ih r hl, hr]
        simp only [sanitizeSpec, sanitizeSpecAux, h1, if_true]
        rw [ht]
        exact congrArg _ (sanitizeSpecAux_skip ['s', 't', 'r', 'o', 'n', 'g', '>'] r).symm

/-- The five replacements compute the one-pass sanitization. -/
theorem sanitize_eq_spec (s : List Char) : sanitize s = sanitizeSpec s :=
  sanitize_eq_spec_aux s.length s (Nat.le_refl _)

/-! ### Where `<` and `>` can stand in tagged text -/

theorem Tagged.plain_append {tags : List (List Char)} :
    ∀ (a r : List Char), (∀ x ∈ a, x ≠ '<' ∧ x ≠ '>') → Tagged tags r → Tagged tags (a ++ r)
  | [], _, _, hr => hr
  | c :: a, r, ha, hr =>
    Tagged.char c (a ++ r) (ha c (List.mem_cons_self _ _)).1 (ha c (List.mem_cons_self _ _)).2
      (Tagged.plain_append a r (fun x hx => ha x (List.mem_cons_of_mem _ hx)) hr)

theorem Tagged.append {tags : List (List Char)} {a b : List Char} (ha : Tagged tags a)
    (hb : Tagged tags b) : Tagged tags (a ++ b) := by
  induction ha with
  | nil => simpa using hb
  | tag t r ht _ ih => rw [List.append_assoc]; exact Tagged.tag t _ ht ih
  | char c r h1 h2 _ ih => exact Tagged.char c _ h1 h2 ih

theorem Tagged.mono {tags tags2 : List (List Char)} (hsub : ∀ t ∈ tags, t ∈ tags2)
    {a : List Char} (ha : Tagged tags a) : Tagged tags2 a := by
  induction ha with
  | nil => exact Tagged.nil
  | tag t r ht _ ih => exact Tagged.tag t r (hsub t ht) ih
  | char c r h1 h2 _ ih => exact Tagged.char c r h1 h2 ih

theorem IsTag.lt_index {t : List Char} (ht : IsTag t) {i : Nat} (h : t[i]? = some '<') :
    i = 0 := by
  obtain ⟨mid, rfl, hmid⟩ := ht
  cases i with
  | zero => rfl
  | succ i =>
    rw [List.cons_append, List.getElem?_cons_succ] at h
    have hm := List.getElem?_mem h
    rcases List.mem_append.mp hm with h1 | h1
    · exact absurd rfl (hmid _ h1).1
    · simp at h1

theorem IsTag.gt_index {t : List Char} (ht : IsTag t) {i : Nat} (h : t[i]? = some '>') :
    i + 1 = t.length := by
  obtain ⟨mid, rfl, hmid⟩ := ht
  cases i with
  | zero => simp at h
  | succ i =>
    rw [List.cons_append, List.getElem?_cons_succ, List.getElem?_append] at h
    split at h
    · exact absurd rfl (hmid _ (List.getElem?_mem h)).2
    · rename_i hlt
      have hi : i - mid.length = 0 := by
        rcases Nat.eq_zero_or_pos (i - mid.length) with h0 | h0
        · exact h0
        · rw [List.getElem?_eq_none (by simp only [List.length_singleton]; omega)] at h
          cases h
      simp only [List.cons_append, List.length_cons, List.length_append, List.length_nil]
      omega

theorem Tagged.lt_occurs {tags : List (List Char)} (htags : ∀ t ∈ tags, IsTag t)
    {out : List Char} (h : Tagged tags out) :
    ∀ i, out[i]? = some '<' → ∃ t ∈ tags, OccursAt t out i := by
  induction h with
  | nil => intro i hi; simp at hi
  | tag t r ht _ ih =>
    intro i hi
    rw [List.getElem?_append] at hi
    split at hi
    · have h0 := (htags t ht).lt_index hi
      subst h0
      exact ⟨t, ht, by simp [OccursAt]⟩
    · rename_i hge
      obtain ⟨t2, ht2, ho⟩ := ih _ hi
      refine ⟨t2, ht2, ?_⟩
      have e : i = t.length + (i - t.length) := by omega
      unfold OccursAt at *
      rw [e, List.drop_append]
      exact ho
  | char c r h1 _ _ ih =>
    intro i hi
    cases i with
    | zero => simp at hi; exact absurd hi h1
    | succ i =>
      rw [List.getElem?_cons_succ] at hi
      obtain ⟨t2, ht2, ho⟩ := ih _ hi
      exact ⟨t2, ht2, by simpa [OccursAt] using ho⟩

theorem Tagged.gt_occurs {tags : List (List Char)} (htags : ∀ t ∈ tags, IsTag t)
    {out : List Char} (h : Tagged tags out) :
    ∀ i, out[i]? = some '>' → ∃ t ∈ tags, ∃ j, j + t.length = i + 1 ∧ OccursAt t out j := by
  induction h with
  | nil => intro i hi; simp at hi
  | tag t r ht _ ih =>
    intro i hi
    rw [List.getElem?_append] at hi
    split at hi
    · have h0 := (htags t ht).gt_index hi
      exact ⟨t, ht, 0, by omega, by simp [OccursAt]⟩
    · rename_i hge
      obtain ⟨t2, ht2, j, hj, ho⟩ := ih _ hi
      refine ⟨t2, ht2, t.length + j, by omega, ?_⟩
      unfold OccursAt at *
      rw [List.drop_append]
      exact ho
  | char c r _ h2 _ ih =>
    intro i hi
    cases i with
    | zero => simp at hi; exact absurd hi h2
    | succ i =>
      rw [List.getElem?_cons_succ] at hi
      obtain ⟨t2, ht2, j, hj, ho⟩ := ih _ hi
      exact ⟨t2, ht2, j + 1, by omega, by simpa [OccursAt] using ho⟩

theorem isTag_strongTags : ∀ t ∈ strongTags, IsTag t := by
  intro t ht
  simp only [strongTags, List.mem_cons, List.mem_singleton, List.not_mem_nil, or_false] at ht
  rcases ht with h | h <;> subst h
  · exact ⟨['s', 't', 'r', 'o', 'n', 'g'], rfl, by decide⟩
  · exact ⟨['/', 's', 't', 'r', 'o', 'n', 'g'], rfl, by decide⟩

theorem isTag_chipTags : ∀ t ∈ chipTags, IsTag t := by
  intro t ht
  simp only [chipTags, List.mem_cons, List.mem_singleton, List.not_mem_nil, or_false] at ht
  rcases ht with h | h | h | h <;> subst h
  · exact ⟨['s', 't', 'r', 'o', 'n', 'g'], rfl, by decide⟩
  · exact ⟨['/', 's', 't', 'r', 'o', 'n', 'g'], rfl, by decide⟩
  · exact ⟨"span class=\"name-chip\"".toList, rfl, by decide⟩
  · exact ⟨['/', 's', 'p', 'a', 'n'], rfl, by decide⟩

theorem tagged_escChar (tags : List (List Char)) (c : Char) (r : List Char)
    (hr : Tagged tags r) : Tagged tags (escChar c ++ r) := by
  apply Tagged.plain_append _ _ _ hr
  rcases escChar_cases c with ⟨hc, e⟩ | ⟨_, e⟩ | ⟨_, e⟩ | ⟨_, e⟩
  · rw [e]; intro x hx; simp at hx; subst hx; exact ⟨hc.2.1, hc.2.2⟩
  all_goals rw [e]; decide

theorem tagged_sanitizeSpecAux : ∀ (s : List Char) (k : Nat),
    Tagged strongTags (sanitizeSpecAux k s)
  | [], k => by cases k <;> exact Tagged.nil
  | c :: s, k + 1 => by simpa [sanitizeSpecAux] using tagged_sanitizeSpecAux s k
  | c :: s, 0 => by
    simp only [sanitizeSpecAux]
    split
    · exact Tagged.tag _ _ (by simp [strongTags]) (tagged_sanitizeSpecAux s 7)
    · split
      · exact Tagged.tag _ _ (by simp [strongTags]) (tagged_sanitizeSpecAux s 8)
      · exact tagged_escChar _ c _ (tagged_sanitizeSpecAux s 0)

theorem tagged_sanitize (s : List Char) : Tagged strongTags (sanitize s) := by
  rw [sanitize_eq_spec]
  exact tagged_sanitizeSpecAux s 0

theorem tagged_renderWithNameChip (name : Option (List Char)) (text : List Char) :
    Tagged chipTags (renderWithNameChip name text) := by
  have hsub : ∀ t ∈ strongTags, t ∈ chipTags := by
    intro t ht
    simp only [strongTags, List.mem_cons, List.mem_singleton, List.not_mem_nil, or_false] at ht
    rcases ht with h | h <;> subst h <;> simp [chipTags]
  have hs : ∀ s, Tagged chipTags (sanitize s) := fun s => (tagged_sanitize s).mono hsub
  unfold renderWithNameChip
  split
  · rename_i n _
    have e : "</span>\n".toList = "</span>".toList ++ ['\n'] := rfl
    rw [e, List.append_assoc, List.append_assoc, List.append_assoc]
    refine Tagged.tag _ _ (by simp [chipTags]) (Tagged.append (hs n) ?_)
    exact Tagged.tag _ _ (by simp [chipTags])
      (Tagged.char _ _ (by decide) (by decide) (hs text))
  · exact hs text

/-- Claim C1.  `sanitize` is the one-pass sanitization of the specification
(a literal strong tag is copied, every other `&`, `<`, `>` becomes its entity);
in its output a `<` only opens, and a `>` only closes, an occurrence of
`<strong>` or `</strong>`; `<script>` is rendered as `&lt;script&gt;`; and in a
user message built by `renderWithNameChip` a `<` only opens, and a `>` only
closes, a strong tag or a tag of the name-chip span. -/
theorem sanitize_contract :
    (∀ s : List Char, sanitize s = sanitizeSpec s) ∧
    (∀ (s : List Char) (i : Nat), (sanitize s)[i]? = some '<' →
      OccursAt "<strong>".toList (sanitize s) i ∨ OccursAt "</strong>".toList (sanitize s) i) ∧
    (∀ (s : List Char) (i : Nat), (sanitize s)[i]? = some '>' →
      (∃ j, j + 7 = i ∧ OccursAt "<strong>".toList (sanitize s) j) ∨
      (∃ j, j + 8 = i ∧ OccursAt "</strong>".toList (sanitize s) j)) ∧
    sanitize "<script>".toList = "&lt;script&gt;".toList ∧
    (∀ (name : Option (List Char)) (text : List Char) (i : Nat),
      (renderWithNameChip name text)[i]? = some '<' →
      ∃ t ∈ chipTags, OccursAt t (renderWithNameChip name text) i) ∧
    (∀ (name : Option (List Char)) (text : List Char) (i : Nat),
      (renderWithNameChip name text)[i]? = some '>' →
      ∃ t ∈ chipTags, ∃ j, j + t.length = i + 1 ∧
        OccursAt t (renderWithNameChip name text) j) := by
  refine ⟨sanitize_eq_spec, ?_, ?_, by decide, ?_, ?_⟩
  · intro s i hi
    obtain ⟨t, ht, ho⟩ := (tagged_sanitize s).lt_occurs isTag_strongTags i hi
    simp only [strongTags, List.mem_cons, List.mem_singleton, List.not_mem_nil, or_false] at ht
    rcases ht with h | h <;> subst h
    · exact Or.inl ho
    · exact Or.inr ho
  · intro s i hi
    obtain ⟨t, ht, j, hj, ho⟩ := (tagged_sanitize s).gt_occurs isTag_strongTags i hi
    simp only [strongTags, List.mem_cons, List.mem_singleton, List.not_mem_nil, or_false] at ht
    rcases ht with h | h <;> subst h
    · exact Or.inl ⟨j, by simpa using hj, ho⟩
    · exact Or.inr ⟨j, by simpa using hj, ho⟩
  · intro name text i hi
    exact (tagged_renderWithNameChip name text).lt_occurs isTag_chipTags i hi
  · intro name text i hi
    exact (tagged_renderWithNameChip name text).gt_occurs isTag_chipTags i hi


/-! ## The submit handler -/

theorem maybeCaptureName_frame (text : List Char) (s : State) :
    (maybeCaptureName text s).profile.lastQuestions = s.profile.lastQuestions ∧
    (maybeCaptureName text s).messages = s.messages ∧
    (maybeCaptureName text s).requests = s.requests ∧
    (maybeCaptureName text s).composerEnabled = s.composerEnabled ∧
    (maybeCaptureName text s).rendered = s.rendered ++
      (match nameMatch text with
        | none => []
        | some m1 =>
          if m1.isEmpty then [] else [(nameAck (capitalizeName (trim m1)), Who.bot)]) := by
  unfold maybeCaptureName
  cases nameMatch text with
  | none => simp
  | some m1 =>
    by_cases h : m1.isEmpty = true
    · simp [h]
    · simp [h, addMessage, saveProfile]

theorem beforeFetch_spec (s : State) (ht : trim s.inputValue ≠ []) :
    (beforeFetch (trim s.inputValue) s).profile.lastQuestions =
      (trim s.inputValue :: s.profile.lastQuestions).take 5 ∧
    (beforeFetch (trim s.inputValue) s).messages = s.messages ∧
    (beforeFetch (trim s.inputValue) s).requests = s.requests ∧
    (beforeFetch (trim s.inputValue) s).composerEnabled = false ∧
    (beforeFetch (trim s.inputValue) s).rendered = s.rendered ++ renderedBeforeFetch s := by
  have he : (trim s.inputValue).isEmpty = false := by
    cases h : trim s.inputValue with
    | nil => exact absurd h ht
    | cons _ _ => rfl
  unfold beforeFetch
  simp only [he, Bool.false_eq_true, if_false]
  refine ⟨?_, ?_, ?_, ?_, ?_⟩
  · simp [saveProfile, (maybeCaptureName_frame _ _).1, setComposerEnabled, addMessage]
  · simp [saveProfile, (maybeCaptureName_frame _ _).2.1, setComposerEnabled, addMessage]
  · simp [saveProfile, (maybeCaptureName_frame _ _).2.2.1, setComposerEnabled, addMessage]
  · simp [saveProfile, (maybeCaptureName_frame _ _).2.2.2.1, setComposerEnabled, addMessage]
  · simp [saveProfile, (maybeCaptureName_frame _ _).2.2.2.2, setComposerEnabled, addMessage,
      renderedBeforeFetch]

/-- The state a submission that passed both guards has when `fetch` is called. -/
theorem submit_accepted (w : World) (s : State) (h : Accepted w s) :
    submit w s =
      (match tryBlock w (trim s.inputValue)
          { beforeFetch (trim s.inputValue) s with
            requests := (beforeFetch (trim s.inputValue) s).requests ++
              [turnMessages (makeContextNote (beforeFetch (trim s.inputValue) s).profile)
                (beforeFetch (trim s.inputValue) s).messages (trim s.inputValue)] } with
        | .ok s7 => setComposerEnabled true s7
        | .error message =>
          setComposerEnabled true (addMessage (errorHtml message) .bot
            { beforeFetch (trim s.inputValue) s with
              requests := (beforeFetch (trim s.inputValue) s).requests ++
                [turnMessages (makeContextNote (beforeFetch (trim s.inputValue) s).profile)
                  (beforeFetch (trim s.inputValue) s).messages (trim s.inputValue)] })) := by
  obtain ⟨ht, hon⟩ := h
  have he : (trim s.inputValue).isEmpty = false := by
    cases h : trim s.inputValue with
    | nil => exact absurd h ht
    | cons _ _ => rfl
  simp [submit, he, hon]

theorem tryBlock_ok (w : World) (t : List Char) (s s7 : State)
    (h : tryBlock w t s = .ok s7) :
    ∃ reply, s7 = { s with
      rendered := s.rendered ++ [(reply, Who.bot)]
      messages := s.messages ++ [⟨.user, .str t⟩, ⟨.assistant, reply⟩] } := by
  unfold tryBlock at h
  split at h
  · cases h
  · split at h
    · cases h
    · split at h
      · cases h
      · split at h
        · cases h
        · rename_i reply _
          injection h with h
          exact ⟨reply, by rw [← h]; rfl⟩


theorem take_append_take {α : Type} (a b : List α) (n : Nat) :
    (a ++ b.take n).take n = (a ++ b).take n := by
  rw [List.take_append_eq_append_take, List.take_append_eq_append_take, List.take_take]
  congr 2
  omega

theorem submit_profile (w : World) (s : State) (h : Accepted w s) :
    (submit w s).profile = (beforeFetch (trim s.inputValue) s).profile := by
  rw [submit_accepted w s h]
  split
  · rename_i s7 heq
    obtain ⟨reply, hr⟩ := tryBlock_ok _ _ _ _ heq
    rw [hr]; rfl
  · rfl

theorem submit_lastQuestions (w : World) (s : State) (h : Accepted w s) :
    (submit w s).profile.lastQuestions =
      (trim s.inputValue :: s.profile.lastQuestions).take 5 := by
  rw [submit_profile w s h, (beforeFetch_spec s h.1).1]

theorem submitAll_lastQuestions :
    ∀ (turns : List (World × List Char)) (s : State) (x : List Char),
      (∀ p ∈ turns, p.1.onLine = true ∧ trim p.2 ≠ []) →
      (x :: (submitAll s turns).profile.lastQuestions).take 5 =
        ((x :: (turns.map (fun p => trim p.2)).reverse) ++ s.profile.lastQuestions).take 5
  | [], s, x, _ => by simp [submitAll]
  | (w, text) :: rest, s, x, h => by
    have hacc : Accepted w { s with inputValue := text } :=
      ⟨(h (w, text) (List.mem_cons_self _ _)).2, (h (w, text) (List.mem_cons_self _ _)).1⟩
    rw [submitAll,
      submitAll_lastQuestions rest _ x (fun p hp => h p (List.mem_cons_of_mem _ hp)),
      submit_lastQuestions _ _ hacc, take_append_take]
    simp

/-- Claim C4.  Let `before` be the state after any sequence `turns` of accepted
submissions from any state `s`, and let one more accepted submission of `text`
follow.  Then the question list has at most 5 entries, its entry 0 is the
trimmed text, the entries after it are the first four of the list before, in
their order; and the list is the first five of: the trimmed texts submitted,
newest first, followed by the list of `s` (so it is the five most recent
texts once five were submitted). -/
theorem lastQuestions_history (s : State) (turns : List (World × List Char)) (w : World)
    (text : List Char) (hturns : ∀ p ∈ turns, p.1.onLine = true ∧ trim p.2 ≠ [])
    (hw : w.onLine = true) (ht : trim text ≠ []) :
    (submit w { submitAll s turns with inputValue := text }).profile.lastQuestions =
      trim text :: (submitAll s turns).profile.lastQuestions.take 4 ∧
    (submit w { submitAll s turns with inputValue := text }).profile.lastQuestions.length ≤ 5 ∧
    (submit w { submitAll s turns with inputValue := text }).profile.lastQuestions[0]? =
      some (trim text) ∧
    (submit w { submitAll s turns with inputValue := text }).profile.lastQuestions =
      ((trim text :: (turns.map (fun p => trim p.2)).reverse) ++ s.profile.lastQuestions).take 5 ∧
    (4 ≤ turns.length →
      (submit w { submitAll s turns with inputValue := text }).profile.lastQuestions =
        (trim text :: (turns.map (fun p => trim p.2)).reverse).take 5) := by
  have hacc : Accepted w { submitAll s turns with inputValue := text } := ⟨ht, hw⟩
  have e := submit_lastQuestions _ _ hacc
  simp only at e
  have e2 := submitAll_lastQuestions turns s (trim text) hturns
  refine ⟨?_, ?_, ?_, ?_, ?_⟩
  · rw [e]; rfl
  · rw [e]; simp
  · rw [e]; simp
  · rw [e, e2]
  · intro hlen
    rw [e, e2, List.take_append_of_le_length]
    simp
    omega

/-- Claim C4 at a concrete input: two questions asked on a fresh page. -/
theorem lastQuestions_history_witness :
    (submit ⟨true, .rejected [], []⟩
      { submitAll (freshState ⟨none, []⟩ []) [(⟨true, .rejected [], []⟩, " dry skin? ".toList)]
        with inputValue := "oily hair?".toList }).profile.lastQuestions =
      ["oily hair?".toList, "dry skin?".toList] :=
  ((lastQuestions_history (freshState ⟨none, []⟩ [])
    [(⟨true, .rejected [], []⟩, " dry skin? ".toList)] ⟨true, .rejected [], []⟩
    "oily hair?".toList (by decide) rfl (by decide)).2.2.2.1).trans (by decide)

/-- Claim C7.  A submission of a text that is not empty once trimmed, made while
`navigator.onLine` is false, renders the offline warning and nothing else,
posts no request, leaves the profile, the saved profiles and the conversation
store as they were, and leaves the composer enabled. -/
theorem submit_offline (w : World) (s : State) (ht : trim s.inputValue ≠ [])
    (hoff : w.onLine = false) :
    (submit w s).rendered = s.rendered ++ [(offlineWarning, Who.bot)] ∧
    (submit w s).requests = s.requests ∧
    (submit w s).profile = s.profile ∧
    (submit w s).saved = s.saved ∧
    (submit w s).messages = s.messages ∧
    (submit w s).composerEnabled = true := by
  have he : (trim s.inputValue).isEmpty = false := by
    cases h : trim s.inputValue with
    | nil => exact absurd h ht
    | cons _ _ => rfl
  simp [submit, he, hoff, setComposerEnabled, addMessage]

/-- Claim C7 at a concrete input: `hello` submitted offline on a fresh page. -/
theorem submit_offline_witness :
    (submit ⟨false, .rejected [], []⟩ (freshState ⟨none, []⟩ "hello".toList)).rendered =
      [(greeting, Who.bot), (offlineWarning, Who.bot)] ∧
    (submit ⟨false, .rejected [], []⟩ (freshState ⟨none, []⟩ "hello".toList)).requests = [] :=
  ⟨(submit_offline ⟨false, .rejected [], []⟩ (freshState ⟨none, []⟩ "hello".toList)
      (by decide) rfl).1,
    (submit_offline ⟨false, .rejected [], []⟩ (freshState ⟨none, []⟩ "hello".toList)
      (by decide) rfl).2.1⟩


theorem sanitize_plain_append :
    ∀ (x b : List Char), (∀ c ∈ x, Plain c) → sanitize (x ++ b) = x ++ sanitize b
  | [], _, _ => rfl
  | c :: x, b, h => by
    have hc : Plain c := h c (List.mem_cons_self _ _)
    have h1 : "<strong>".toList.isPrefixOf (c :: (x ++ b)) = false := by
      simp [openTag_toList, List.isPrefixOf, Ne.symm hc.2.1]
    have h2 : "</strong>".toList.isPrefixOf (c :: (x ++ b)) = false := by
      simp [closeTag_toList, List.isPrefixOf, Ne.symm hc.2.1]
    rw [List.cons_append, sanitize_cons c _ h1 h2,
      sanitize_plain_append x b (fun y hy => h y (List.mem_cons_of_mem _ hy))]
    rcases escChar_cases c with ⟨_, e⟩ | ⟨e, _⟩ | ⟨e, _⟩ | ⟨e, _⟩
    · rw [e]; rfl
    · exact absurd e hc.1
    · exact absurd e hc.2.1
    · exact absurd e hc.2.2

theorem plain_digit (n : Nat) : Plain (Char.ofNat (0x30 + n % 10)) := by
  have h : n % 10 < 10 := Nat.mod_lt _ (by decide)
  interval_cases n % 10 <;> exact ⟨by decide, by decide, by decide⟩

theorem decimalAux_plain : ∀ (fuel n : Nat) (acc : List Char), (∀ c ∈ acc, Plain c) →
    ∀ c ∈ decimalAux fuel n acc, Plain c
  | 0, _, acc, h => by simpa [decimalAux] using h
  | fuel + 1, n, acc, h => by
    have hacc : ∀ c ∈ Char.ofNat (0x30 + n % 10) :: acc, Plain c := by
      intro c hc
      rcases List.mem_cons.mp hc with e | e
      · rw [e]; exact plain_digit n
      · exact h c e
    unfold decimalAux
    split
    · exact hacc
    · exact decimalAux_plain fuel (n / 10) _ hacc

theorem decimal_plain (n : Nat) : ∀ c ∈ decimal n, Plain c :=
  decimalAux_plain (n + 1) n [] (by simp)

/-- The text of a status error is sanitized to itself, the body apart. -/
theorem sanitize_worker_http (n : Nat) (b : List Char) :
    sanitize ("Worker HTTP ".toList ++ decimal n ++ ": ".toList ++ b) =
      "Worker HTTP ".toList ++ decimal n ++ ": ".toList ++ sanitize b := by
  have hp1 : ∀ c ∈ "Worker HTTP ".toList, Plain c := by unfold Plain; decide
  have hp2 : ∀ c ∈ ": ".toList, Plain c := by unfold Plain; decide
  apply sanitize_plain_append
  intro c hc
  rcases List.mem_append.mp hc with h | h
  · rcases List.mem_append.mp h with h | h
    · exact hp1 c h
    · exact decimal_plain n c h
  · exact hp2 c h

theorem submit_error (w : World) (s : State) (h : Accepted w s) (message : List Char)
    (he : ∀ s6, tryBlock w (trim s.inputValue) s6 = .error message) :
    (submit w s).rendered = s.rendered ++ renderedBeforeFetch s ++ [(errorHtml message, Who.bot)] ∧
    (submit w s).messages = s.messages ∧
    (submit w s).composerEnabled = true := by
  rw [submit_accepted w s h, he]
  obtain ⟨_, h2, _, _, h5⟩ := beforeFetch_spec s h.1
  simp [setComposerEnabled, addMessage, h2, h5]

theorem submit_reply (w : World) (s : State) (h : Accepted w s) (n : Nat) (raw : List Char)
    (data reply : JSValue) (hres : w.result = .response n raw) (hok : isOk n = true)
    (hparse : JSONparse raw = some data) (hbot : botText w.nullReadMessage data = .ok reply) :
    (submit w s).rendered = s.rendered ++ renderedBeforeFetch s ++ [(reply, Who.bot)] ∧
    (submit w s).messages =
      s.messages ++ [⟨.user, .str (trim s.inputValue)⟩, ⟨.assistant, reply⟩] ∧
    (submit w s).composerEnabled = true := by
  rw [submit_accepted w s h]
  obtain ⟨_, h2, _, _, h5⟩ := beforeFetch_spec s h.1
  simp [tryBlock, hres, hok, hparse, hbot, setComposerEnabled, addMessage, h2, h5]

/-- Claim C5.  An accepted submission whose request ends with a status outside
200..299, with a status inside and a body that is not JSON, or with a rejected
`fetch`, renders after the user message (and the acknowledgment of a captured
name) exactly one more message, the error markup around the sanitized error
text; the conversation store is what it was and the composer is enabled.  For
a status `n` outside 200..299 and body `b` the error markup reads
`Worker HTTP n: ` followed by `sanitize b`. -/
theorem submit_failure (w : World) (s : State) (message : List Char) (h : Accepted w s)
    (hfail :
      (∃ n b, w.result = .response n b ∧ ¬ (200 ≤ n ∧ n ≤ 299) ∧
        message = "Worker HTTP ".toList ++ decimal n ++ ": ".toList ++ b) ∨
      (∃ n b, w.result = .response n b ∧ (200 ≤ n ∧ n ≤ 299) ∧ JSONparse b = none ∧
        message = "Non-JSON from worker: ".toList ++ b) ∨
      w.result = .rejected message) :
    (submit w s).rendered =
      s.rendered ++ renderedBeforeFetch s ++
        [(JSValue.str ("⚠️ <strong>Error:</strong> ".toList ++ sanitize message), Who.bot)] ∧
    (submit w s).messages = s.messages ∧
    (submit w s).composerEnabled = true ∧
    (∀ n b, w.result = .response n b → ¬ (200 ≤ n ∧ n ≤ 299) →
      sanitize message = "Worker HTTP ".toList ++ decimal n ++ ": ".toList ++ sanitize b) := by
  have key : ∀ s6, tryBlock w (trim s.inputValue) s6 = .error message := by
    intro s6
    rcases hfail with ⟨n, b, hres, hn, hm⟩ | ⟨n, b, hres, hn, hp, hm⟩ | hres
    · have hok : isOk n = false := by
        simp only [isOk, Bool.and_eq_false_iff, decide_eq_false_iff_not]
        by_cases h1 : 200 ≤ n
        · exact Or.inr (fun h2 => hn ⟨h1, h2⟩)
        · exact Or.inl h1
      simp [tryBlock, hres, hok, hm]
    · have hok : isOk n = true := by simp [isOk, hn.1, hn.2]
      simp [tryBlock, hres, hok, hp, hm]
    · simp [tryBlock, hres]
  obtain ⟨h1, h2, h3⟩ := submit_error w s h message key
  refine ⟨h1, h2, h3, ?_⟩
  intro n b hres hn
  rcases hfail with ⟨n2, b2, hres2, _, hm⟩ | ⟨n2, b2, hres2, hn2, _, _⟩ | hres2
  · rw [hres] at hres2
    injection hres2 with e1 e2
    subst e1; subst e2
    rw [hm, sanitize_worker_http]
  · rw [hres] at hres2
    injection hres2 with e1 e2
    subst e1
    exact absurd hn2 hn
  · rw [hres] at hres2
    cases hres2

/-- Claim C5 at a concrete input: status 500 with the body `oops`. -/
theorem submit_failure_witness :
    (submit ⟨true, .response 500 "oops".toList, []⟩
        (freshState ⟨none, []⟩ "hello".toList)).rendered =
      [(greeting, Who.bot), (JSValue.str "hello".toList, Who.user),
        (JSValue.str "⚠️ <strong>Error:</strong> Worker HTTP 500: oops".toList, Who.bot)] ∧
    (submit ⟨true, .response 500 "oops".toList, []⟩
        (freshState ⟨none, []⟩ "hello".toList)).messages = initialMessages :=
  ⟨((submit_failure ⟨true, .response 500 "oops".toList, []⟩
      (freshState ⟨none, []⟩ "hello".toList) "Worker HTTP 500: oops".toList
      ⟨by decide, rfl⟩ (Or.inl ⟨500, "oops".toList, rfl, by decide, by decide⟩)).1).trans
      (by rfl),
    (submit_failure ⟨true, .response 500 "oops".toList, []⟩
      (freshState ⟨none, []⟩ "hello".toList) "Worker HTTP 500: oops".toList
      ⟨by decide, rfl⟩ (Or.inl ⟨500, "oops".toList, rfl, by decide, by decide⟩)).2.1⟩

theorem botText_of_not_null (m : List Char) (data : JSValue) (hnn : data.isNull = false) :
    botText m data =
      .ok (coalesceValue (coalesce (data.get "reply".toList) (choicesContent data)) noResponse) := by
  simp [botText, hnn]

/-- Claim C6, amended.  An accepted submission answered with a status in 200..299
and a body that parses to a JSON value other than `null` renders one reply
after the user message (and the acknowledgment of a captured name): the
`reply` field of the body when it is present (neither missing nor `null`),
otherwise `choices[0].message.content` when present, otherwise the literal
`Sorry—no response was returned.`; the conversation store gains at its end the
user entry with the trimmed text and the assistant entry with the reply, and
the composer is enabled. -/
theorem submit_success (w : World) (s : State) (n : Nat) (raw : List Char) (data : JSValue)
    (h : Accepted w s) (hres : w.result = .response n raw) (hok : 200 ≤ n ∧ n ≤ 299)
    (hparse : JSONparse raw = some data) (hnn : data.isNull = false) :
    ∃ reply : JSValue,
      (∀ r, Present (data.get "reply".toList) r → reply = r) ∧
      (nullish (data.get "reply".toList) = true →
        ∀ c, Present (choicesContent data) c → reply = c) ∧
      (nullish (data.get "reply".toList) = true → nullish (choicesContent data) = true →
        reply = noResponse) ∧
      (submit w s).rendered = s.rendered ++ renderedBeforeFetch s ++ [(reply, Who.bot)] ∧
      (submit w s).messages =
        s.messages ++ [⟨.user, .str (trim s.inputValue)⟩, ⟨.assistant, reply⟩] ∧
      (submit w s).composerEnabled = true := by
  have hok2 : isOk n = true := by simp [isOk, hok.1, hok.2]
  refine ⟨coalesceValue (coalesce (data.get "reply".toList) (choicesContent data)) noResponse,
    ?_, ?_, ?_, submit_reply w s h n raw data _ hres hok2 hparse (botText_of_not_null _ _ hnn)⟩
  · rintro r ⟨hr, hrn⟩
    rw [hr]
    simp [coalesce, coalesceValue, nullish, hrn]
  · rintro hnull c ⟨hc, hcn⟩
    simp only [coalesce, hnull, if_true, hc]
    simp [coalesceValue, hcn]
  · intro hnull hnull2
    simp only [coalesce, hnull, if_true]
    cases hx : choicesContent data with
    | none => rfl
    | some v =>
      rw [hx] at hnull2
      simp only [nullish] at hnull2
      simp [coalesceValue, hnull2]

/-- Claim C6 at a concrete input: the body is the object with the field `reply`
set to `Try Revitalift...`. -/
theorem submit_success_witness :
    ∃ reply : JSValue,
      (∀ r, Present ((JSValue.obj [("reply".toList, .str "Try Revitalift...".toList)]).get
        "reply".toList) r → reply = r) ∧
      (submit ⟨true, .response 200 "\x7b\"reply\":\"Try Revitalift...\"\x7d".toList, []⟩
        (freshState ⟨none, []⟩ "What is a good routine for dry skin?".toList)).messages =
        initialMessages ++
          [⟨.user, .str "What is a good routine for dry skin?".toList⟩, ⟨.assistant, reply⟩] :=
  let ⟨reply, h1, _, _, _, h5, _⟩ :=
    submit_success ⟨true, .response 200 "\x7b\"reply\":\"Try Revitalift...\"\x7d".toList, []⟩
      (freshState ⟨none, []⟩ "What is a good routine for dry skin?".toList) 200
      "\x7b\"reply\":\"Try Revitalift...\"\x7d".toList
      (.obj [("reply".toList, .str "Try Revitalift...".toList)])
      ⟨by decide, rfl⟩ rfl (by decide) (by rfl) rfl
  ⟨reply, h1, h5⟩

/-- Claim C6 fails for the body `null`: it parses as JSON, reading `data.reply`
throws, the error is rendered and the conversation store gains nothing. -/
theorem submit_success_counterexample :
    JSONparse "null".toList = some JSValue.null ∧
    (submit ⟨true, .response 200 "null".toList, "data is null".toList⟩
      (freshState ⟨none, []⟩ "hello".toList)).messages = initialMessages ∧
    (submit ⟨true, .response 200 "null".toList, "data is null".toList⟩
      (freshState ⟨none, []⟩ "hello".toList)).rendered =
      [(greeting, Who.bot), (JSValue.str "hello".toList, Who.user),
        (JSValue.str "⚠️ <strong>Error:</strong> data is null".toList, Who.bot)] ∧
    ¬ ∃ reply : JSValue,
      (submit ⟨true, .response 200 "null".toList, "data is null".toList⟩
        (freshState ⟨none, []⟩ "hello".toList)).messages =
      (freshState ⟨none, []⟩ "hello".toList).messages ++
        [⟨.user, .str "hello".toList⟩, ⟨.assistant, reply⟩] := by
  refine ⟨by rfl, by rfl, by rfl, ?_⟩
  rintro ⟨reply, hr⟩
  have hl := congrArg List.length hr
  rw [show (submit ⟨true, .response 200 "null".toList, "data is null".toList⟩
      (freshState ⟨none, []⟩ "hello".toList)).messages = initialMessages from by rfl] at hl
  simp [freshState, initialMessages] at hl

/-- Claim C8, amended.  An accepted submission answered with a status in 200..299
and a body that parses to a JSON value other than `null` in which neither
`reply` nor `choices[0].message.content` is present is not an error: the
literal `Sorry—no response was returned.` is rendered as the reply, the
conversation store gains the user entry and an assistant entry with that
literal, and the composer is enabled. -/
theorem submit_missing_reply (w : World) (s : State) (n : Nat) (raw : List Char)
    (data : JSValue) (h : Accepted w s) (hres : w.result = .response n raw)
    (hok : 200 ≤ n ∧ n ≤ 299) (hparse : JSONparse raw = some data)
    (hnn : data.isNull = false) (hreply : nullish (data.get "reply".toList) = true)
    (hcontent : nullish (choicesContent data) = true) :
    (submit w s).rendered = s.rendered ++ renderedBeforeFetch s ++ [(noResponse, Who.bot)] ∧
    (submit w s).messages =
      s.messages ++ [⟨.user, .str (trim s.inputValue)⟩, ⟨.assistant, noResponse⟩] ∧
    (submit w s).composerEnabled = true := by
  have hok2 : isOk n = true := by simp [isOk, hok.1, hok.2]
  have hb : botText w.nullReadMessage data = .ok noResponse := by
    rw [botText_of_not_null _ _ hnn]
    simp only [coalesce, hreply, if_true]
    cases hx : choicesContent data with
    | none => rfl
    | some v =>
      rw [hx] at hcontent
      simp only [nullish] at hcontent
      simp [coalesceValue, hcontent]
  exact submit_reply w s h n raw data _ hres hok2 hparse hb

/-- Claim C8, amended, at a concrete input: the body is the empty object. -/
theorem submit_missing_reply_witness :
    (submit ⟨true, .response 200 "\x7b\x7d".toList, []⟩
      (freshState ⟨none, []⟩ "hello".toList)).messages =
      initialMessages ++ [⟨.user, .str "hello".toList⟩, ⟨.assistant, noResponse⟩] :=
  (submit_missing_reply ⟨true, .response 200 "\x7b\x7d".toList, []⟩
    (freshState ⟨none, []⟩ "hello".toList) 200 "\x7b\x7d".toList (.obj [])
    ⟨by decide, rfl⟩ rfl (by decide) (by rfl) rfl rfl rfl).2.1

/-- Claim C8 fails for the body of the empty object: no error is rendered, the
reply is the literal, and the conversation store is not what it was. -/
theorem submit_missing_reply_counterexample :
    (submit ⟨true, .response 200 "\x7b\x7d".toList, []⟩
      (freshState ⟨none, []⟩ "hello".toList)).rendered =
      [(greeting, Who.bot), (JSValue.str "hello".toList, Who.user), (noResponse, Who.bot)] ∧
    (submit ⟨true, .response 200 "\x7b\x7d".toList, []⟩
      (freshState ⟨none, []⟩ "hello".toList)).messages ≠
      (freshState ⟨none, []⟩ "hello".toList).messages := by
  refine ⟨by rfl, ?_⟩
  intro hr
  have hl := congrArg List.length hr
  rw [show (submit ⟨true, .response 200 "\x7b\x7d".toList, []⟩
      (freshState ⟨none, []⟩ "hello".toList)).messages =
      initialMessages ++ [⟨.user, .str "hello".toList⟩, ⟨.assistant, noResponse⟩] from by rfl]
    at hl
  simp [freshState, initialMessages] at hl

theorem submit_requests (w : World) (s : State) (h : Accepted w s) :
    (submit w s).requests = s.requests ++
      [turnMessages (makeContextNote (submit w s).profile) s.messages (trim s.inputValue)] ∧
    ((submit w s).messages = s.messages ∨
      ∃ reply, (submit w s).messages =
        s.messages ++ [⟨.user, .str (trim s.inputValue)⟩, ⟨.assistant, reply⟩]) := by
  rw [submit_profile w s h, submit_accepted w s h]
  obtain ⟨_, h2, h3, _, _⟩ := beforeFetch_spec s h.1
  split
  · rename_i s7 heq
    obtain ⟨reply, hr⟩ := tryBlock_ok _ _ _ _ heq
    rw [hr]
    exact ⟨by simp [setComposerEnabled, h2, h3],
      Or.inr ⟨reply, by simp [setComposerEnabled, h2]⟩⟩
  · exact ⟨by simp [setComposerEnabled, addMessage, h2, h3],
      Or.inl (by simp [setComposerEnabled, addMessage, h2])⟩

/-- Claim C9.  For an accepted submission the `messages` array posted is the
fixed system prompt, the context note made from the profile as updated in
this turn, every entry of the conversation store whose role is not system, in
order, and the user entry with the trimmed text; its entries of role system
are exactly those at the indices 0 and 1; and the store afterwards is the
store before, or the store before with the user entry and an assistant entry
at its end, so the context note never enters it. -/
theorem turn_request_shape (w : World) (s : State) (h : Accepted w s) :
    (submit w s).requests = s.requests ++
      [[⟨.system, .str SYSTEM_PROMPT⟩,
          ⟨.system, .str (makeContextNote (submit w s).profile)⟩] ++
        s.messages.filter (fun m => m.role ≠ .system) ++
        [⟨.user, .str (trim s.inputValue)⟩]] ∧
    (∀ (i : Nat) (m : Message),
      (turnMessages (makeContextNote (submit w s).profile) s.messages (trim s.inputValue))[i]?
        = some m → (m.role = .system ↔ i < 2)) ∧
    ((submit w s).messages = s.messages ∨
      ∃ reply, (submit w s).messages =
        s.messages ++ [⟨.user, .str (trim s.inputValue)⟩, ⟨.assistant, reply⟩]) := by
  refine ⟨(submit_requests w s h).1, ?_, (submit_requests w s h).2⟩
  intro i m hm
  unfold turnMessages at hm
  match i with
  | 0 =>
    simp at hm
    rw [← hm]; simp
  | 1 =>
    simp at hm
    rw [← hm]; simp
  | k + 2 =>
    simp only [List.cons_append, List.nil_append, List.getElem?_cons_succ] at hm
    have hmem := List.getElem?_mem hm
    have hne : m.role ≠ .system := by
      rcases List.mem_append.mp hmem with h1 | h1
      · simpa using (List.mem_filter.mp h1).2
      · simp at h1; rw [h1]; intro hx; cases hx
    constructor
    · intro hs; exact absurd hs hne
    · intro hlt; omega

/-- Claim C9 at a concrete input: the first question on a fresh page. -/
theorem turn_request_shape_witness :
    (submit ⟨true, .rejected [], []⟩ (freshState ⟨none, []⟩ "hello".toList)).requests =
      [[⟨.system, .str SYSTEM_PROMPT⟩,
        ⟨.system, .str "Context note for assistant:  Recent questions: \"hello\".".toList⟩,
        ⟨.user, .str "hello".toList⟩]] :=
  ((turn_request_shape ⟨true, .rejected [], []⟩ (freshState ⟨none, []⟩ "hello".toList)
    ⟨by decide, rfl⟩).1).trans (by rfl)


/-! ## Name capture and the persisted profile -/

theorem maybeCaptureName_of_match (text m1 : List Char) (s : State)
    (h : nameMatch text = some m1) (hm : m1.isEmpty = false) :
    (maybeCaptureName text s).profile.name = some (capitalizeName (trim m1)) := by
  simp [maybeCaptureName, h, hm, addMessage, saveProfile]

/-- Claim C2, evaluated.  `my name is Ana` stores `Ana`, and a text that matches
none of the three patterns changes nothing; but for `me llamo josé` the group
gives back its last character, because `\b` does not hold after `é` at the end
of the text, and the name stored is `Jos`, not `José`. -/
theorem maybeCaptureName_examples :
    (∀ s : State,
      (maybeCaptureName "my name is Ana".toList s).profile.name = some "Ana".toList) ∧
    matchMeLlamo "me llamo josé".toList = some "jos".toList ∧
    (∀ s : State,
      (maybeCaptureName "me llamo josé".toList s).profile.name = some "Jos".toList) ∧
    (∀ s : State,
      (maybeCaptureName "me llamo josé".toList s).profile.name ≠ some "José".toList) ∧
    (∀ (text : List Char) (s : State), matchMyNameIs text = none → matchMeLlamo text = none →
      matchSoy text = none → maybeCaptureName text s = s) := by
  have h1 : nameMatch "my name is Ana".toList = some "Ana".toList := by decide
  have h2 : nameMatch "me llamo josé".toList = some "jos".toList := by decide
  refine ⟨?_, by decide, ?_, ?_, ?_⟩
  · intro s
    rw [maybeCaptureName_of_match _ _ s h1 rfl]
    decide
  · intro s
    rw [maybeCaptureName_of_match _ _ s h2 rfl]
    decide
  · intro s
    rw [maybeCaptureName_of_match _ _ s h2 rfl]
    decide
  · intro text s a b c
    simp [maybeCaptureName, nameMatch, a, b, c]

theorem getLast?_dropWhile (p : Char → Bool) :
    ∀ (r : List Char) (c : Char), (r.dropWhile p).getLast? = some c → r.getLast? = some c
  | [], c, h => by simp at h
  | a :: r, c, h => by
    by_cases hp : p a = true
    · rw [List.dropWhile_cons_of_pos hp] at h
      have ih := getLast?_dropWhile p r c h
      cases r with
      | nil => simp at ih
      | cons b r => rw [List.getLast?_cons_cons]; exact ih
    · rw [List.dropWhile_cons_of_neg hp] at h
      exact h

theorem trim_noEdgeSpace (s : List Char) : NoEdgeSpace (trim s) := by
  unfold trim NoEdgeSpace
  constructor
  · intro c hc
    rw [List.head?_reverse] at hc
    have h1 := getLast?_dropWhile isSpace _ c hc
    rw [List.getLast?_reverse] at h1
    have h2 := List.head?_dropWhile_not isSpace s
    rw [h1] at h2
    simpa using h2
  · intro c hc
    rw [List.getLast?_reverse] at hc
    have h2 := List.head?_dropWhile_not isSpace (s.dropWhile isSpace).reverse
    rw [hc] at h2
    simpa using h2

theorem tokensAux_ne_nil : ∀ (rest cur : List Char), ∀ w ∈ tokensAux cur rest, w ≠ []
  | [], cur, w, hw => by
    unfold tokensAux at hw
    split at hw
    · simp at hw
    · rename_i hcur
      simp at hw
      rw [hw]
      simpa using hcur
  | c :: cs, cur, w, hw => by
    unfold tokensAux at hw
    split at hw
    · split at hw
      · exact tokensAux_ne_nil cs [] w hw
      · rename_i hcur
        rcases List.mem_cons.mp hw with h | h
        · rw [h]; simpa using hcur
        · exact tokensAux_ne_nil cs [] w h
    · exact tokensAux_ne_nil cs (c :: cur) w hw

theorem splitAux_eq_tokensAux : ∀ (rest : List Char) (b : Bool) (cur : List Char),
    (b = true → cur = []) → cur ++ rest ≠ [] →
    (∀ c, rest.getLast? = some c → isSpace c = false) →
    (b = false → cur = [] → ∀ c, rest.head? = some c → isSpace c = false) →
    splitAux b cur rest = tokensAux cur rest
  | [], b, cur, _, h2, _, _ => by
    have hcur : cur ≠ [] := by simpa using h2
    simp [splitAux, tokensAux, hcur]
  | c :: cs, b, cur, h1, _, h3, h4 => by
    by_cases hc : isSpace c = true
    · have hcs : cs ≠ [] := by
        intro e
        subst e
        have := h3 c rfl
        rw [hc] at this
        cases this
      have h3c : ∀ x, cs.getLast? = some x → isSpace x = false := by
        intro x hx
        apply h3
        cases cs with
        | nil => exact absurd rfl hcs
        | cons d ds => rw [List.getLast?_cons_cons]; exact hx
      have ih := splitAux_eq_tokensAux cs true [] (fun _ => rfl) (by simpa using hcs) h3c
        (fun hf => by cases hf)
      cases b with
      | true =>
        have hcur := h1 rfl
        subst hcur
        simp [splitAux, tokensAux, hc, ih]
      | false =>
        have hcur : cur ≠ [] := by
          intro e
          have := h4 rfl e c rfl
          rw [hc] at this
          cases this
        simp [splitAux, tokensAux, hc, hcur, ih]
    · have h3c : ∀ x, cs.getLast? = some x → isSpace x = false := by
        intro x hx
        apply h3
        cases cs with
        | nil => simp at hx
        | cons d ds => rw [List.getLast?_cons_cons]; exact hx
      have ih := splitAux_eq_tokensAux cs false (c :: cur) (fun hf => by cases hf) (by simp)
        h3c (fun _ e => by cases e)
      simp [splitAux, tokensAux, hc, ih]

/-- Outside the empty token the script and the specification agree: for a text
that is not empty and has no whitespace at its ends, `capitalizeName` is the
token-wise transformation. -/
theorem capitalizeName_eq_spec (n : List Char) (hn : n ≠ []) (he : NoEdgeSpace n) :
    capitalizeName n = titleCaseSpec n := by
  unfold capitalizeName titleCaseSpec splitWs
  rw [splitAux_eq_tokensAux n false [] (fun hf => by cases hf) (by simpa using hn) he.2
    (fun _ _ => he.1)]
  congr 1
  apply List.map_congr_left
  intro w hw
  have hne := tokensAux_ne_nil n [] w hw
  cases w with
  | nil => exact absurd rfl hne
  | cons c cs => rfl

/-- Claim C10, evaluated.  `capitalizeName` of the empty text is the text
`undefined`, where the token-wise transformation gives the empty text; and
`maybeCaptureName` reaches that case: in `my name is   5` the group captures two
blanks, which trim to the empty text, and the name stored is `undefined`.
Whenever the captured span does not trim to the empty text, the name stored is
the token-wise transformation of the trimmed span. -/
theorem capitalizeName_undefined :
    capitalizeName [] = "undefined".toList ∧
    titleCaseSpec [] = [] ∧
    matchMyNameIs "my name is   5".toList = some "  ".toList ∧
    titleCaseSpec (trim "  ".toList) = [] ∧
    (∀ s : State,
      (maybeCaptureName "my name is   5".toList s).profile.name = some "undefined".toList) ∧
    (∀ (text m1 : List Char) (s : State), nameMatch text = some m1 → trim m1 ≠ [] →
      (maybeCaptureName text s).profile.name = some (titleCaseSpec (trim m1))) := by
  have h : nameMatch "my name is   5".toList = some "  ".toList := by decide
  refine ⟨by decide, by decide, by decide, by decide, ?_, ?_⟩
  · intro s
    rw [maybeCaptureName_of_match _ _ s h rfl]
    decide
  · intro text m1 s hm ht
    have hm1 : m1.isEmpty = false := by
      cases m1 with
      | nil => exact absurd rfl ht
      | cons _ _ => rfl
    rw [maybeCaptureName_of_match _ _ s hm hm1,
      capitalizeName_eq_spec _ ht (trim_noEdgeSpace m1)]

/-- The paths of `loadProfile`: it always returns; a missing key, a text that
is not JSON and a text that parses to a falsy value give the default profile;
a text that parses to a truthy value gives that value. -/
theorem loadProfile_total (item : Option (List Char)) :
    (∃ v, loadProfile item = .ok v) ∧
    (item = none → loadProfile item = .ok defaultProfile) ∧
    (JSONparse (item.getD "null".toList) = none → loadProfile item = .ok defaultProfile) ∧
    (∀ v, JSONparse (item.getD "null".toList) = some v → v.truthy = false →
      loadProfile item = .ok defaultProfile) ∧
    (∀ v, JSONparse (item.getD "null".toList) = some v → v.truthy = true →
      loadProfile item = .ok v) ∧
    loadProfile (some "null".toList) = .ok defaultProfile ∧
    loadProfile (some "not json".toList) = .ok defaultProfile := by
  refine ⟨?_, ?_, ?_, ?_, ?_, by rfl, by rfl⟩
  · unfold loadProfile
    cases JSONparse (item.getD "null".toList) with
    | none => exact ⟨_, rfl⟩
    | some v => exact ⟨_, rfl⟩
  · intro h
    subst h
    rfl
  · intro h
    unfold loadProfile
    rw [h]
  · intro v h hv
    unfold loadProfile
    rw [h]
    simp [hv]
  · intro v h hv
    unfold loadProfile
    rw [h]
    simp [hv]

/-- Claim C3, evaluated.  For a missing key, for a text that is not JSON and
for the text `null`, `loadProfile` returns the default profile, whose
`lastQuestions` is the empty array.  For the texts of the empty object, of `5`
and of the empty array it returns the parsed value instead of the default
profile, and that value has no `lastQuestions`, which the submit handler reads
without a guard. -/
theorem loadProfile_unshaped :
    loadProfile none = .ok defaultProfile ∧
    loadProfile (some "not json".toList) = .ok defaultProfile ∧
    loadProfile (some "null".toList) = .ok defaultProfile ∧
    defaultProfile.get "lastQuestions".toList = some (.arr []) ∧
    loadProfile (some "\x7b\x7d".toList) = .ok (.obj []) ∧
    loadProfile (some "5".toList) = .ok (.num ⟨false, 5, 0⟩) ∧
    loadProfile (some "[]".toList) = .ok (.arr []) ∧
    loadProfile (some "\x7b\x7d".toList) ≠ .ok defaultProfile ∧
    loadProfile (some "5".toList) ≠ .ok defaultProfile ∧
    loadProfile (some "[]".toList) ≠ .ok defaultProfile ∧
    (JSValue.obj []).get "lastQuestions".toList = none ∧
    (JSValue.num ⟨false, 5, 0⟩).get "lastQuestions".toList = none ∧
    (JSValue.arr []).get "lastQuestions".toList = none := by
  have h1 : loadProfile (some "\x7b\x7d".toList) = .ok (.obj []) := by rfl
  have h2 : loadProfile (some "5".toList) = .ok (.num ⟨false, 5, 0⟩) := by rfl
  have h3 : loadProfile (some "[]".toList) = .ok (.arr []) := by rfl
  refine ⟨by rfl, by rfl, by rfl, by rfl, h1, h2, h3, ?_, ?_, ?_, by rfl, by rfl, by rfl⟩
  · rw [h1]; simp [defaultProfile]
  · rw [h2]; simp [defaultProfile]
  · rw [h3]; simp [defaultProfile]


end LorealChat
